import Mathlib

/-!
Verification development for the task synchronization engine of the
obsidian-mstodo-sync repository (sources: src/parser.ts, src/sync.ts,
src/main.ts).

Modelling conventions used throughout:
* Text is modelled at the character level (`List Char` / `String`; in this
  toolchain a `String` is exactly its list of characters).  Each JavaScript
  regular expression used by the parser is embedded as an explicit matcher
  `List Char → Option Nat` returning the length of the (leftmost-position,
  greedy) match starting at the head of the list, and `String.replace` is
  embedded as `replaceFirst` (non-global regex) or `replaceAll` (global
  regex).
* A JavaScript `Date` holding a calendar day parsed from a `YYYY-MM-DD`
  string is modelled by that string itself; the composite operation
  `new Date(x).toISOString().split('T')[0]` on an already-normalized UTC ISO
  string is modelled by `isoDatePart` (everything before the first `T`).
* The engine's async effects are modelled by explicit state passing: the
  per-pair resolution `syncExistingTask` is a pure function from the engine
  state (suppression set + ledger) and the two tasks to the new state and
  the list of write-back operations it issues.  `Date.now()` is an explicit
  `now` parameter.
* JavaScript `Map` and `Set` are modelled by association lists (`ledgerSet`
  conses the new binding; `List.lookup` returns the most recent one) and by
  membership-tested lists.
* Fallible remote calls are modelled with `Except ApiError`; a JS
  `try { … } catch { log }` that swallows the error is modelled by a match
  that maps both outcomes to success.
-/

/-- Model of the character class matched by the JavaScript regex `\s` for the
whitespace characters relevant to this code base (space, tab, LF, CR). -/
def isWsChar (c : Char) : Bool :=
  c = ' ' || c = '\t' || c = '\n' || c = '\r'

/-- Match a literal list of characters at the head of `l`; on success return
the rest of the list.  Building block for the embedded regex matchers. -/
def expectLit : List Char → List Char → Option (List Char)
  | [], l => some l
  | _ :: _, [] => none
  | a :: as, c :: cs => if c = a then expectLit as cs else none

/-- Shape test for `\d{4}-\d{2}-\d{2}` at the head of a character list
(the date part of the parser's date regexes); the match length is 10. -/
def matchDateShape (l : List Char) : Bool :=
  match l with
  | y1 :: y2 :: y3 :: y4 :: '-' :: m1 :: m2 :: '-' :: d1 :: d2 :: _ =>
    y1.isDigit && y2.isDigit && y3.isDigit && y4.isDigit &&
      m1.isDigit && m2.isDigit && d1.isDigit && d2.isDigit
  | _ => false

/-- Matcher for `MSTODO_ID_REGEX = /\[ms-todo:([^\]]+)\]/` at the head of a
character list (parser.ts line 41). -/
def msIdAt (l : List Char) : Option Nat :=
  match expectLit "[ms-todo:".toList l with
  | none => none
  | some r =>
    match r.takeWhile (fun c => c != ']'), r.dropWhile (fun c => c != ']') with
    | _ :: _, _ :: _ => some ("[ms-todo:".toList.length + (r.takeWhile (fun c => c != ']')).length + 1)
    | _, _ => none

/-- Matcher for `MSTODO_LINK_REGEX = /\[🔗 MS To Do\]\(ms-todo:([^)]+)\)/` at
the head of a character list (parser.ts line 42). -/
def msLinkAt (l : List Char) : Option Nat :=
  match expectLit "[🔗 MS To Do](ms-todo:".toList l with
  | none => none
  | some r =>
    match r.takeWhile (fun c => c != ')'), r.dropWhile (fun c => c != ')') with
    | _ :: _, _ :: _ =>
      some ("[🔗 MS To Do](ms-todo:".toList.length + (r.takeWhile (fun c => c != ')')).length + 1)
    | _, _ => none

/-- Matcher for the marker-plus-date regexes `📅\s*(\d{4}-\d{2}-\d{2})`
(due date), `✅…` (completion/done date), `🛫…` (start date) and `⏰…`
(scheduled date) of parser.ts lines 38 and 45-49, parametrised by the
marker character. -/
def emojiDateAt (mark : Char) (l : List Char) : Option Nat :=
  match l with
  | [] => none
  | c :: cs =>
    if c = mark then
      if matchDateShape (cs.dropWhile isWsChar) then
        some (1 + (cs.takeWhile isWsChar).length + 10)
      else none
    else none

/-- Matcher for `PRIORITY_REGEX = /(🔺|⏫|🔻)/` (parser.ts line 39). -/
def prioAt (l : List Char) : Option Nat :=
  match l with
  | [] => none
  | c :: _ =>
    if c = '🔺' then some 1
    else if c = '⏫' then some 1
    else if c = '🔻' then some 1
    else none

/-- Matcher for `TAG_REGEX = /#([^\s#]+)/g` (parser.ts line 40). -/
def tagAt (l : List Char) : Option Nat :=
  match l with
  | [] => none
  | c :: cs =>
    if c = '#' then
      let tk := cs.takeWhile (fun x => !isWsChar x && x != '#')
      if tk.isEmpty then none else some (1 + tk.length)
    else none

/-- Matcher for `RECURRENCE_REGEX = /🔁\s*[^🔗\s]+/` (parser.ts line 48). -/
def recurAt (l : List Char) : Option Nat :=
  match l with
  | [] => none
  | c :: cs =>
    if c = '🔁' then
      let tk := (cs.dropWhile isWsChar).takeWhile (fun x => !isWsChar x && x != '🔗')
      if tk.isEmpty then none else some (1 + (cs.takeWhile isWsChar).length + tk.length)
    else none

/-- Embedding of `String.replace` with a non-global regex: delete the
leftmost match of `m` (if any), scanning positions from the left. -/
def replaceFirst (m : List Char → Option Nat) : List Char → List Char
  | [] => []
  | c :: cs =>
    match m (c :: cs) with
    | some n => (c :: cs).drop n
    | none => c :: replaceFirst m cs

/-- Fuel-indexed worker for `replaceAll`; every match of the regexes used
here has length at least one, so `l.length` fuel suffices. -/
def replaceAllF (m : List Char → Option Nat) : Nat → List Char → List Char
  | 0, l => l
  | _ + 1, [] => []
  | fuel + 1, c :: cs =>
    match m (c :: cs) with
    | some (n + 1) => replaceAllF m fuel (cs.drop n)
    | _ => c :: replaceAllF m fuel cs

/-- Embedding of `String.replace` with a global regex: delete every match of
`m`, resuming the scan after each deleted match. -/
def replaceAll (m : List Char → Option Nat) (l : List Char) : List Char :=
  replaceAllF m l.length l

/-- Return the leftmost match of `m` as the matched character list (the
embedding of `text.match(regex)[0]` for the matchers above). -/
def firstMatchStr (m : List Char → Option Nat) : List Char → Option (List Char)
  | [] => none
  | c :: cs =>
    match m (c :: cs) with
    | some n => some ((c :: cs).take n)
    | none => firstMatchStr m cs

/-- Worker for `collapseWs`; the flag records whether the previous input
character belonged to a whitespace run whose single `' '` was already
emitted. -/
def collapseAux : Bool → List Char → List Char
  | _, [] => []
  | prevWs, c :: cs =>
    if isWsChar c then
      if prevWs then collapseAux true cs
      else ' ' :: collapseAux true cs
    else c :: collapseAux false cs

/-- Embedding of `.replace(/\s+/g, ' ')`: every maximal whitespace run
becomes a single space. -/
def collapseWs (l : List Char) : List Char :=
  collapseAux false l

/-- Drop trailing whitespace. -/
def trimEnd (l : List Char) : List Char :=
  (l.reverse.dropWhile isWsChar).reverse

/-- Embedding of `String.prototype.trim()`. -/
def trimWs (l : List Char) : List Char :=
  (trimEnd l).dropWhile isWsChar

/-- The marker-removal part of `cleanTaskText` (parser.ts lines 187-200):
strip, in source order, the MS To Do id marker, the MS To Do link marker,
the due date, the first priority marker, all tags, the
completion/start/scheduled date markers, the recurrence marker and a second
completion date. -/
def stripMarkers (l : List Char) : List Char :=
  replaceFirst (emojiDateAt '✅')
  (replaceFirst recurAt
  (replaceFirst (emojiDateAt '⏰')
  (replaceFirst (emojiDateAt '🛫')
  (replaceFirst (emojiDateAt '✅')
  (replaceAll tagAt
  (replaceFirst prioAt
  (replaceFirst (emojiDateAt '📅')
  (replaceFirst msLinkAt
  (replaceFirst msIdAt l)))))))))

/-- Character-list core of `cleanTaskText` (parser.ts lines 185-204): strip
all markers, then collapse whitespace and trim. -/
def cleanList (l : List Char) : List Char :=
  trimWs (collapseWs (stripMarkers l))

/-- `cleanTaskText` of parser.ts lines 185-204: remove all formatting and
metadata to get the core task text used for comparison. -/
def cleanTaskText (s : String) : String :=
  (cleanList s.toList).asString

/-- Model of `new Date(x).toISOString().split('T')[0]` on an
already-normalized UTC ISO date-time string: the part before `T`. -/
def isoDatePart (s : String) : String :=
  (s.toList.takeWhile (fun c => c != 'T')).asString

/-- `importance`/`priority` values (parser.ts lines 11 and 21). -/
inductive Priority where
  | low
  | normal
  | high
deriving DecidableEq

/-- Remote task status values (parser.ts line 20). -/
inductive MSStatus where
  | notStarted
  | inProgress
  | completed
deriving DecidableEq

/-- The `dueDateTime` field of a remote task (parser.ts lines 22-25). -/
structure DateTimeTz where
  dateTime : String
  timeZone : String
deriving DecidableEq

/-- The `body` field of a remote task (parser.ts lines 28-31). -/
structure TaskBody where
  content : String
  contentType : String
deriving DecidableEq

/-- `ObsidianTask` of parser.ts lines 3-15.  The `file : TFile` reference is
modelled by its path, the `line` index keeps its JavaScript `number` type as
`Int` (the code stores `-1` for unknown lines), and `Date` fields are
modelled by their ISO date strings. -/
structure ObsidianTask where
  text : String
  completed : Bool
  filePath : String
  line : Int
  originalLine : String
  dueDate : Option String := none
  priority : Option Priority := none
  tags : List String := []
  msToDoId : Option String := none
  lastModified : Option String := none
deriving DecidableEq

/-- `MSToDoTask` of parser.ts lines 17-34. -/
structure MSToDoTask where
  id : String
  title : String
  status : MSStatus
  importance : Priority
  dueDateTime : Option DateTimeTz := none
  createdDateTime : String := ""
  lastModifiedDateTime : String := ""
  body : Option TaskBody := none
  obsidianFile : Option String := none
  obsidianLine : Option Int := none
deriving DecidableEq

/-- `Partial<MSToDoTask>` as produced by `convertObsidianToMSToDoTask`
(parser.ts lines 136-161): the fields the conversion can set. -/
structure MSToDoDraft where
  title : String
  status : MSStatus
  importance : Priority
  dueDateTime : Option DateTimeTz := none
  body : Option TaskBody := none
  obsidianFile : Option String := none
  obsidianLine : Option Int := none
deriving DecidableEq

/-- `convertObsidianToMSToDoTask` (parser.ts lines 136-161). -/
def convertObsidianToMSToDoTask (o : ObsidianTask) : MSToDoDraft where
  title := cleanTaskText o.text
  status := if o.completed then .completed else .notStarted
  importance := o.priority.getD .normal
  dueDateTime := o.dueDate.map (fun d => { dateTime := d ++ "T00:00:00.000Z", timeZone := "UTC" })
  body :=
    if o.tags.isEmpty then none
    else some { content := "Tags: " ++ String.intercalate " " (o.tags.map (fun t => "#" ++ t)),
                contentType := "text" }
  obsidianFile := some o.filePath
  obsidianLine := some o.line

/-- `formatTaskText` (parser.ts lines 274-294): render a remote task as
local task text (title, priority marker, due date, link marker). -/
def formatTaskText (m : MSToDoTask) : String :=
  let t0 := m.title
  let t1 :=
    if m.importance = .high then t0 ++ " 🔺"
    else if m.importance = .low then t0 ++ " 🔻"
    else t0
  let t2 :=
    match m.dueDateTime with
    | some dt => t1 ++ " 📅 " ++ isoDatePart dt.dateTime
    | none => t1
  t2 ++ " [🔗 MS To Do](ms-todo:" ++ m.id ++ ")"

/-- Attach a server-assigned identifier to a draft, yielding the remote task
the service stores for it; this is how `toLocalText ∘ toRemoteDraft` is
composed (the created task echoes the draft's fields plus the new id). -/
def remoteOfDraft (d : MSToDoDraft) (id : String) : MSToDoTask where
  id := id
  title := d.title
  status := d.status
  importance := d.importance
  dueDateTime := d.dueDateTime
  body := d.body
  obsidianFile := d.obsidianFile
  obsidianLine := d.obsidianLine

/-- Substring-occurrence predicate: `a` appears contiguously inside `b`. -/
def listWithin (a b : List Char) : Prop :=
  ∃ p q, b = p ++ a ++ q

/-- Stage 1 of the `mergedText` accumulation of `mergeTaskWithExisting`
(parser.ts lines 222-228): the remote title, plus the original completion
date marker when the remote task is completed. -/
def mergeText1 (o : ObsidianTask) (m : MSToDoTask) : List Char :=
  match firstMatchStr (emojiDateAt '✅') o.text.toList with
  | some s => if m.status = .completed then m.title.toList ++ ' ' :: s else m.title.toList
  | none => m.title.toList

/-- Stage 2 (parser.ts lines 229-231): re-attach the start date marker. -/
def mergeText2 (o : ObsidianTask) (m : MSToDoTask) : List Char :=
  match firstMatchStr (emojiDateAt '🛫') o.text.toList with
  | some s => mergeText1 o m ++ ' ' :: s
  | none => mergeText1 o m

/-- Stage 3 (parser.ts lines 232-234): re-attach the scheduled date
marker. -/
def mergeText3 (o : ObsidianTask) (m : MSToDoTask) : List Char :=
  match firstMatchStr (emojiDateAt '⏰') o.text.toList with
  | some s => mergeText2 o m ++ ' ' :: s
  | none => mergeText2 o m

/-- Stage 4 (parser.ts lines 235-237): re-attach the recurrence marker. -/
def mergeText4 (o : ObsidianTask) (m : MSToDoTask) : List Char :=
  match firstMatchStr recurAt o.text.toList with
  | some s => mergeText3 o m ++ ' ' :: s
  | none => mergeText3 o m

/-- Stage 5 (parser.ts lines 239-244): append the remote priority marker. -/
def mergeText5 (o : ObsidianTask) (m : MSToDoTask) : List Char :=
  if m.importance = .high then mergeText4 o m ++ (' ' :: '🔺' :: [])
  else if m.importance = .low then mergeText4 o m ++ (' ' :: '🔻' :: [])
  else mergeText4 o m

/-- Stage 6 (parser.ts lines 246-249): append the remote due date. -/
def mergeText6 (o : ObsidianTask) (m : MSToDoTask) : List Char :=
  match m.dueDateTime with
  | some dt => mergeText5 o m ++ (' ' :: '📅' :: ' ' :: (isoDatePart dt.dateTime).toList)
  | none => mergeText5 o m

/-- Stage 7 (parser.ts lines 251-261): keep the existing link or id marker,
else append a fresh link marker for the remote identifier. -/
def mergeTextFull (o : ObsidianTask) (m : MSToDoTask) : List Char :=
  match firstMatchStr msLinkAt o.text.toList with
  | some s => mergeText6 o m ++ ' ' :: s
  | none =>
    match firstMatchStr msIdAt o.text.toList with
    | some s => mergeText6 o m ++ ' ' :: s
    | none => mergeText6 o m ++ ' ' :: ("[🔗 MS To Do](ms-todo:" ++ m.id ++ ")").toList

/-- `mergeTaskWithExisting` (parser.ts lines 212-272): merge remote changes
into an existing local task, re-attaching the Tasks-plugin date/recurrence
markers extracted from the original text (the `mergedText` accumulation is
`mergeTextFull`). -/
def mergeTaskWithExisting (o : ObsidianTask) (m : MSToDoTask) : ObsidianTask :=
  { o with
    text := (mergeTextFull o m).asString
    completed := decide (m.status = .completed)
    priority := if m.importance = .normal then none else some m.importance
    dueDate := m.dueDateTime.map (fun dt => isoDatePart dt.dateTime)
    msToDoId := some m.id
    lastModified := some m.lastModifiedDateTime }

/-- Character classes whose first characters start a metadata or link marker
recognised by `cleanTaskText`; a "plain" character starts none of them. -/
def plainChar (c : Char) : Bool :=
  !(c = '📅' || c = '🔺' || c = '⏫' || c = '🔻' || c = '#' || c = '[' ||
    c = '✅' || c = '🛫' || c = '⏰' || c = '🔁')

/-- Exact `YYYY-MM-DD` shape: ten characters, `\d{4}-\d{2}-\d{2}`. -/
def dateShapeExact (l : List Char) : Bool :=
  match l with
  | [y1, y2, y3, y4, '-', m1, m2, '-', d1, d2] =>
    y1.isDigit && y2.isDigit && y3.isDigit && y4.isDigit &&
      m1.isDigit && m2.isDigit && d1.isDigit && d2.isDigit
  | _ => false

/-- Invariant of collapsed text: its only whitespace character is `' '`. -/
def wsOnlySpace (l : List Char) : Prop :=
  ∀ c ∈ l, isWsChar c = true → c = ' '

/-- Invariant of collapsed text: no two adjacent spaces. -/
def noAdjSp : List Char → Prop
  | a :: b :: rest => ¬ (a = ' ' ∧ b = ' ') ∧ noAdjSp (b :: rest)
  | _ => True

/-- `updateTaskInContent` (parser.ts lines 296-306).  The document content is
modelled by its list of lines (`content.split('\n')`; the final
`lines.join('\n')` is the inverse bijection). -/
def updateTaskInContent (contentLines : List String) (task newTask : ObsidianTask) :
    List String :=
  if 0 ≤ task.line ∧ task.line < (contentLines.length : Int) then
    let indent := ((contentLines.getD task.line.toNat "").toList.takeWhile isWsChar).asString
    let checkbox := if newTask.completed then "[x]" else "[ ]"
    contentLines.set task.line.toNat (indent ++ "- " ++ checkbox ++ " " ++ newTask.text)
  else contentLines

/-- Projected comparison state built in `syncExistingTask` (sync.ts lines
210-222); `JSON.stringify` equality of the two ad-hoc objects is structural
equality of this record. -/
structure ProjectedState where
  completed : Bool
  title : String
  priority : Priority
  dueDate : Option String
deriving DecidableEq

/-- The local side's projected state (sync.ts lines 210-215).  The stored
`Date` is the parsed `YYYY-MM-DD` day, which `toISOString().split('T')[0]`
maps back to itself. -/
def obsidianStateOf (o : ObsidianTask) : ProjectedState where
  completed := o.completed
  title := cleanTaskText o.text
  priority := o.priority.getD .normal
  dueDate := o.dueDate

/-- The remote side's projected state (sync.ts lines 217-222). -/
def msStateOf (m : MSToDoTask) : ProjectedState where
  completed := decide (m.status = .completed)
  title := m.title
  priority := m.importance
  dueDate := m.dueDateTime.map (fun dt => isoDatePart dt.dateTime)

/-- `contentDiffers` (sync.ts lines 250-252). -/
def contentDiffers (a b : ProjectedState) : Prop :=
  a.title ≠ b.title ∨ a.priority ≠ b.priority ∨ a.dueDate ≠ b.dueDate

instance (a b : ProjectedState) : Decidable (contentDiffers a b) := by
  unfold contentDiffers
  exact inferInstance

/-- Entry of `lastKnownStates` (sync.ts line 15). -/
structure LedgerEntry where
  completed : Bool
  lastSync : Nat
deriving DecidableEq

/-- The engine-private mutable state of `TaskSync` (sync.ts lines 13-15):
the suppression set `recentlyUpdatedTasks` and the ledger
`lastKnownStates`. -/
structure SyncState where
  recentlyUpdatedTasks : List String
  lastKnownStates : List (String × LedgerEntry)
deriving DecidableEq

/-- `Set.add`: add an identifier to the suppression set. -/
def setAdd (l : List String) (x : String) : List String :=
  if l.contains x then l else x :: l

/-- `Map.set`: bind `k` to `v`; `List.lookup` sees the newest binding. -/
def ledgerSet (l : List (String × LedgerEntry)) (k : String) (v : LedgerEntry) :
    List (String × LedgerEntry) :=
  (k, v) :: l

/-- The update payload sent by `updateMSToDoTask` (sync.ts lines 415-419):
the conversion of the local task with `obsidianFile`/`obsidianLine`
deleted. -/
def updateMSToDoPayload (o : ObsidianTask) : MSToDoDraft :=
  { convertObsidianToMSToDoTask o with obsidianFile := none, obsidianLine := none }

/-- A write-back operation issued during per-pair resolution: a `PATCH` of
the remote task (`updateMSToDoTask`) or a rewrite of the local task with the
merged text (`updateObsidianTask`, sync.ts lines 445-465). -/
inductive SyncAction where
  | patchRemote (taskId : String) (payload : MSToDoDraft)
  | writeLocalMerge (o : ObsidianTask) (m : MSToDoTask)
deriving DecidableEq

/-- `syncExistingTask` (sync.ts lines 202-363) as a pure function: given the
current time, the engine state and a paired (local, remote) task, return the
new engine state and the write-back operations issued. -/
def syncExistingTask (now : Nat) (st : SyncState) (o : ObsidianTask) (m : MSToDoTask) :
    SyncState × List SyncAction :=
  if st.recentlyUpdatedTasks.contains m.id then
    (st, [])
  else
    let oState := obsidianStateOf o
    let mState := msStateOf m
    if oState ≠ mState then
      if contentDiffers oState mState then
        ({ st with recentlyUpdatedTasks := setAdd st.recentlyUpdatedTasks m.id },
          [SyncAction.patchRemote m.id (updateMSToDoPayload o)])
      else if oState.completed ≠ mState.completed then
        if st.recentlyUpdatedTasks.contains m.id then
          ({ st with lastKnownStates := ledgerSet st.lastKnownStates m.id ⟨oState.completed, now⟩ },
            [])
        else
          match st.lastKnownStates.lookup m.id with
          | some lastKnown =>
            if lastKnown.completed ≠ oState.completed ∧ ¬ lastKnown.completed ≠ mState.completed then
              ({ st with recentlyUpdatedTasks := setAdd st.recentlyUpdatedTasks m.id,
                         lastKnownStates := ledgerSet st.lastKnownStates m.id ⟨oState.completed, now⟩ },
                [SyncAction.patchRemote m.id (updateMSToDoPayload o)])
            else if lastKnown.completed ≠ mState.completed ∧ ¬ lastKnown.completed ≠ oState.completed then
              ({ st with recentlyUpdatedTasks := setAdd st.recentlyUpdatedTasks m.id,
                         lastKnownStates := ledgerSet st.lastKnownStates m.id ⟨mState.completed, now⟩ },
                [SyncAction.writeLocalMerge o m])
            else if lastKnown.completed ≠ oState.completed ∧ lastKnown.completed ≠ mState.completed then
              if oState.completed = true ∨ mState.completed = true then
                if oState.completed then
                  ({ st with recentlyUpdatedTasks := setAdd st.recentlyUpdatedTasks m.id,
                             lastKnownStates := ledgerSet st.lastKnownStates m.id ⟨oState.completed, now⟩ },
                    [SyncAction.patchRemote m.id (updateMSToDoPayload o)])
                else
                  ({ st with recentlyUpdatedTasks := setAdd st.recentlyUpdatedTasks m.id,
                             lastKnownStates := ledgerSet st.lastKnownStates m.id ⟨mState.completed, now⟩ },
                    [SyncAction.writeLocalMerge o m])
              else (st, [])
            else (st, [])
          | none =>
            let step :=
              if oState.completed = true ∧ mState.completed = false then
                ({ st with recentlyUpdatedTasks := setAdd st.recentlyUpdatedTasks m.id },
                  [SyncAction.patchRemote m.id (updateMSToDoPayload o)])
              else if mState.completed = true ∧ oState.completed = false then
                ({ st with recentlyUpdatedTasks := setAdd st.recentlyUpdatedTasks m.id },
                  [SyncAction.writeLocalMerge o m])
              else (st, ([] : List SyncAction))
            ({ step.1 with
                lastKnownStates :=
                  ledgerSet step.1.lastKnownStates m.id ⟨oState.completed || mState.completed, now⟩ },
              step.2)
      else (st, [])
    else
      ({ st with lastKnownStates := ledgerSet st.lastKnownStates m.id ⟨oState.completed, now⟩ },
        [])

/-- A remote task list (the objects of `/me/todo/lists`, sync.ts lines
517-531). -/
structure MSList where
  id : String
  displayName : String
  wellknownListName : Option String := none
deriving DecidableEq

/-- A failed Microsoft Graph call (sync.ts lines 54-63). -/
structure ApiError where
  status : Nat
  body : String
deriving DecidableEq

/-- `getAllMSToDoTasks` (sync.ts lines 126-147) over an abstract remote
service: the result of listing the lists, and the result of listing each
list's tasks.  A failure to list the lists is rethrown; a failure to list
one list's tasks is caught by the inner `try/catch`, logged, and that list
is skipped. -/
def getAllMSToDoTasks (listsResp : Except ApiError (List MSList))
    (tasksResp : String → Except ApiError (List MSToDoTask)) :
    Except ApiError (List MSToDoTask) :=
  match listsResp with
  | .error e => .error e
  | .ok ls =>
    .ok (ls.foldl (fun acc l =>
      match tasksResp l.id with
      | .ok ts => acc ++ ts
      | .error _ => acc) [])

/-- Outcome of `updateMSToDoTask` (sync.ts lines 415-443) as seen by its
caller: the whole body is wrapped in `try/catch` which logs and swallows any
error, so the call always resolves successfully. -/
def updateMSToDoTaskOutcome (patchResp : Except ApiError MSToDoTask) : Except ApiError Unit :=
  match patchResp with
  | .ok _ => .ok ()
  | .error _ => .ok ()

/-- Outcome of one sync pass (`performBidirectionalSync` → `syncTasks`,
sync.ts lines 72-95 and 149-200): indexing failures propagate to the caller,
while the write-back operations are joined with `Promise.allSettled`, whose
result is never a rejection. -/
def syncPassOutcome (listsResp : Except ApiError (List MSList))
    (tasksResp : String → Except ApiError (List MSToDoTask)) : Except ApiError Unit :=
  match getAllMSToDoTasks listsResp tasksResp with
  | .error e => .error e
  | .ok _ => .ok ()

/-- `getDefaultListId` (sync.ts lines 516-532): first list whose
`wellknownListName` is `defaultList` or whose `displayName` is `Tasks`, else
the first list, else an error. -/
def getDefaultListId (lists : List MSList) : Except String String :=
  match lists.find? (fun l => l.wellknownListName == some "defaultList" || l.displayName == "Tasks") with
  | some l => .ok l.id
  | none =>
    match lists with
    | l :: _ => .ok l.id
    | [] => .error "No task lists found"

/-- Modelled from the spec: the destination-list resolution described in
§4.4 ("a configured default, else a well-known default list, else the first
available list; fail if none exists").  The configured default (the
`defaultList` plugin setting of main.ts lines 18-19) is not consulted
anywhere in sync.ts, so this spec-side definition exists only to exhibit the
divergence. -/
def getDefaultListIdSpec (configuredDefault : String) (lists : List MSList) :
    Except String String :=
  match lists.find? (fun l => l.displayName == configuredDefault) with
  | some l => .ok l.id
  | none => getDefaultListId lists

/-! Concrete fixtures used by the witness theorems below. -/

/-- A linked local task, completed, with core title `T`. -/
def exLocalDone : ObsidianTask :=
  { text := "T [🔗 MS To Do](ms-todo:A1)", completed := true, filePath := "Tasks.md",
    line := 0, originalLine := "- [x] T [🔗 MS To Do](ms-todo:A1)", msToDoId := some "A1" }

/-- The same local task, not completed. -/
def exLocalOpen : ObsidianTask :=
  { exLocalDone with completed := false }

/-- The paired remote task, not started, same core title. -/
def exRemoteOpen : MSToDoTask :=
  { id := "A1", title := "T", status := .notStarted, importance := .normal }

/-- The paired remote task, completed. -/
def exRemoteDone : MSToDoTask :=
  { exRemoteOpen with status := .completed }

/-- A paired remote task with a different title (a content difference). -/
def exRemoteRetitled : MSToDoTask :=
  { exRemoteOpen with title := "T2", status := .completed }

/-- Engine state with an empty suppression set and empty ledger. -/
def exStateEmpty : SyncState := ⟨[], []⟩

/-- Engine state whose ledger remembers `completed = false` for `A1`. -/
def exStateLedgerFalse : SyncState := ⟨[], [("A1", ⟨false, 0⟩)]⟩

/-- Engine state whose ledger remembers `completed = true` for `A1`. -/
def exStateLedgerTrue : SyncState := ⟨[], [("A1", ⟨true, 0⟩)]⟩

/-- Engine state in which `A1` is suppressed. -/
def exStateSuppressed : SyncState := ⟨["A1"], []⟩

/-- A local task with only supported metadata (due date, priority, tag,
link marker), for the round-trip witness. -/
def exLocalRich : ObsidianTask :=
  { text := "Do thing 📅 2025-01-15 🔺 #work [🔗 MS To Do](ms-todo:A1)", completed := false,
    filePath := "Tasks.md", line := 2, originalLine := "", dueDate := some "2025-01-15",
    priority := some .high, tags := ["work"], msToDoId := some "A1" }

/-- A local task carrying a tag and all four Tasks-plugin markers. -/
def exLocalMarked : ObsidianTask :=
  { text := "Do thing #work ✅ 2024-01-02 🛫 2024-01-01 ⏰ 2024-01-03 🔁 weekly [🔗 MS To Do](ms-todo:A1)",
    completed := true, filePath := "Tasks.md", line := 3, originalLine := "",
    tags := ["work"], msToDoId := some "A1" }

/-- A remote task as `mergeTaskWithExisting` sees it (reopened remotely). -/
def exRemoteMerge : MSToDoTask :=
  { id := "A1", title := "Do thing", status := .notStarted, importance := .normal }

/-- Two remote lists; the user-configured default list is named `Work`. -/
def exLists : List MSList :=
  [{ id := "list-personal", displayName := "Personal" },
   { id := "list-work", displayName := "Work" }]

/-- A remote task list for the error-model fixtures. -/
def exList1 : MSList := { id := "l1", displayName := "Tasks", wellknownListName := some "defaultList" }

/-- A second remote task list for the error-model fixtures. -/
def exList2 : MSList := { id := "l2", displayName := "Other" }

/-- A concrete remote failure. -/
def exApiError : ApiError := ⟨500, "InternalServerError" ⟩

/-- A task-listing responder that fails for `l1` and returns one task for
every other list. -/
def exTasksResp : String → Except ApiError (List MSToDoTask) :=
  fun listId => if listId = "l1" then .error exApiError else .ok [exRemoteOpen]

/-- A local task whose recorded line index is out of range. -/
def exLineOutOfRange : ObsidianTask :=
  { exLocalOpen with line := 5 }

/-- A local task whose recorded line index is in range for a 3-line file. -/
def exLineInRange : ObsidianTask :=
  { exLocalOpen with line := 1 }

/-! Helper lemmas about the engine-state containers. -/

/-- Adding an identifier to the suppression set makes `contains` true. -/
theorem setAdd_contains_self (l : List String) (x : String) : (setAdd l x).contains x = true := by
  unfold setAdd
  split
  · assumption
  · simp [List.contains_cons]

/-- Looking up the key just written into the ledger returns the new entry. -/
theorem ledgerSet_lookup_self (l : List (String × LedgerEntry)) (k : String) (v : LedgerEntry) :
    (ledgerSet l k v).lookup k = some v := by
  simp [ledgerSet, List.lookup]

/-- If the projected states differ but none of title, priority and due date
differ, the completion flags must differ. -/
theorem completed_ne_of_ne_of_not_content (a b : ProjectedState) (h : a ≠ b)
    (hnc : ¬ contentDiffers a b) : a.completed ≠ b.completed := by
  intro hc
  apply h
  unfold contentDiffers at hnc
  push_neg at hnc
  obtain ⟨h1, h2, h3⟩ := hnc
  cases a
  cases b
  simp_all

/-- C1: for a paired task that is not suppressed, whose projected states
differ and whose content (title, priority or due date) differs, the
resolution issues exactly one write — a remote patch carrying the local
title/priority/due date/completion —, adds the remote identifier to the
suppression set, leaves the ledger untouched, and never updates the local
side. -/
theorem syncExistingTask_content_wins (now : Nat) (st : SyncState) (o : ObsidianTask)
    (m : MSToDoTask)
    (hsup : st.recentlyUpdatedTasks.contains m.id = false)
    (hdiff : obsidianStateOf o ≠ msStateOf m)
    (hcontent : contentDiffers (obsidianStateOf o) (msStateOf m)) :
    (syncExistingTask now st o m).2 = [SyncAction.patchRemote m.id (updateMSToDoPayload o)] ∧
    (syncExistingTask now st o m).1.recentlyUpdatedTasks.contains m.id = true ∧
    (syncExistingTask now st o m).1.lastKnownStates = st.lastKnownStates ∧
    (updateMSToDoPayload o).title = cleanTaskText o.text ∧
    (updateMSToDoPayload o).importance = o.priority.getD .normal ∧
    (updateMSToDoPayload o).dueDateTime =
      o.dueDate.map (fun d => { dateTime := d ++ "T00:00:00.000Z", timeZone := "UTC" }) ∧
    (updateMSToDoPayload o).status = (if o.completed then .completed else .notStarted) ∧
    ∀ a ∈ (syncExistingTask now st o m).2, ∀ o' m', a ≠ SyncAction.writeLocalMerge o' m' := by
  have hsup' : m.id ∉ st.recentlyUpdatedTasks := by
    simpa using hsup
  have hrun : syncExistingTask now st o m =
      ({ st with recentlyUpdatedTasks := setAdd st.recentlyUpdatedTasks m.id },
        [SyncAction.patchRemote m.id (updateMSToDoPayload o)]) := by
    simp [syncExistingTask, hsup', hdiff, hcontent]
  refine ⟨by rw [hrun], ?_, by rw [hrun], rfl, rfl, rfl, rfl, ?_⟩
  · rw [hrun]
    exact setAdd_contains_self _ _
  · rw [hrun]
    intro a ha o' m'
    simp only [List.mem_singleton] at ha
    subst ha
    simp

/-- C1 witness: a concrete unsuppressed pair with a title difference. -/
theorem syncExistingTask_content_wins_witness :
    (exStateEmpty.recentlyUpdatedTasks.contains exRemoteRetitled.id = false ∧
      obsidianStateOf exLocalDone ≠ msStateOf exRemoteRetitled ∧
      contentDiffers (obsidianStateOf exLocalDone) (msStateOf exRemoteRetitled)) ∧
    (syncExistingTask 5 exStateEmpty exLocalDone exRemoteRetitled).2 =
      [SyncAction.patchRemote "A1" (updateMSToDoPayload exLocalDone)] :=
  ⟨⟨by decide, by decide, by decide⟩,
    (syncExistingTask_content_wins 5 exStateEmpty exLocalDone exRemoteRetitled
      (by decide) (by decide) (by decide)).1⟩

/-- C2: for a paired task with a completion difference only, not suppressed,
with an existing ledger entry: if only the local completed flag moved away
from the ledger the engine patches the remote task; if only the remote flag
moved it rewrites the local task; in both branches it re-points the ledger
at the winning completed value with the current time and suppresses the
identifier. -/
theorem syncExistingTask_ledger_one_side (now : Nat) (st : SyncState) (o : ObsidianTask)
    (m : MSToDoTask) (entry : LedgerEntry)
    (hsup : st.recentlyUpdatedTasks.contains m.id = false)
    (hdiff : obsidianStateOf o ≠ msStateOf m)
    (hnc : ¬ contentDiffers (obsidianStateOf o) (msStateOf m))
    (hled : st.lastKnownStates.lookup m.id = some entry) :
    ((entry.completed ≠ o.completed ∧ entry.completed = (msStateOf m).completed) →
      (syncExistingTask now st o m).2 = [SyncAction.patchRemote m.id (updateMSToDoPayload o)] ∧
      (syncExistingTask now st o m).1.lastKnownStates.lookup m.id = some ⟨o.completed, now⟩ ∧
      (syncExistingTask now st o m).1.recentlyUpdatedTasks.contains m.id = true) ∧
    ((entry.completed = o.completed ∧ entry.completed ≠ (msStateOf m).completed) →
      (syncExistingTask now st o m).2 = [SyncAction.writeLocalMerge o m] ∧
      (syncExistingTask now st o m).1.lastKnownStates.lookup m.id =
        some ⟨(msStateOf m).completed, now⟩ ∧
      (syncExistingTask now st o m).1.recentlyUpdatedTasks.contains m.id = true) := by
  have hsup' : m.id ∉ st.recentlyUpdatedTasks := by simpa using hsup
  have hcd : (obsidianStateOf o).completed ≠ (msStateOf m).completed :=
    completed_ne_of_ne_of_not_content _ _ hdiff hnc
  have hoc : o.completed ≠ (msStateOf m).completed := by
    simpa only [obsidianStateOf] using hcd
  have hco : (msStateOf m).completed ≠ o.completed := hoc.symm
  simp only [obsidianStateOf] at hdiff hnc
  constructor
  · rintro ⟨h1, h2⟩
    have hrun : syncExistingTask now st o m =
        ({ st with recentlyUpdatedTasks := setAdd st.recentlyUpdatedTasks m.id,
                   lastKnownStates := ledgerSet st.lastKnownStates m.id ⟨o.completed, now⟩ },
          [SyncAction.patchRemote m.id (updateMSToDoPayload o)]) := by
      simp [syncExistingTask, hsup', hdiff, hnc, hcd, hled, h1, h2, hoc, hco, obsidianStateOf]
    rw [hrun]
    exact ⟨rfl, ledgerSet_lookup_self _ _ _, setAdd_contains_self _ _⟩
  · rintro ⟨h1, h2⟩
    have hrun : syncExistingTask now st o m =
        ({ st with recentlyUpdatedTasks := setAdd st.recentlyUpdatedTasks m.id,
                   lastKnownStates := ledgerSet st.lastKnownStates m.id ⟨(msStateOf m).completed, now⟩ },
          [SyncAction.writeLocalMerge o m]) := by
      simp [syncExistingTask, hsup', hdiff, hnc, hcd, hled, h1, h2, hoc, hco, obsidianStateOf]
    rw [hrun]
    exact ⟨rfl, ledgerSet_lookup_self _ _ _, setAdd_contains_self _ _⟩

/-- C2 witness: ledger remembers `false`, the local side alone toggled to
completed, so the remote is patched and the ledger moves to `true`. -/
theorem syncExistingTask_ledger_one_side_witness :
    (syncExistingTask 7 exStateLedgerFalse exLocalDone exRemoteOpen).2 =
      [SyncAction.patchRemote "A1" (updateMSToDoPayload exLocalDone)] ∧
    (syncExistingTask 7 exStateLedgerFalse exLocalDone exRemoteOpen).1.lastKnownStates.lookup "A1" =
      some ⟨true, 7⟩ := by
  have h := (syncExistingTask_ledger_one_side 7 exStateLedgerFalse exLocalDone exRemoteOpen
      ⟨false, 0⟩ (by decide) (by decide) (by decide) (by decide)).1 ⟨by decide, by decide⟩
  exact ⟨h.1, h.2.1⟩

/-- C3: for a paired task with no ledger entry, not suppressed and with no
content difference, completion bias applies: the side with `completed=true`
wins, the corresponding write is issued, and the ledger records
`completed=true` with the current time. -/
theorem syncExistingTask_no_ledger_bias (now : Nat) (st : SyncState) (o : ObsidianTask)
    (m : MSToDoTask)
    (hsup : st.recentlyUpdatedTasks.contains m.id = false)
    (hdiff : obsidianStateOf o ≠ msStateOf m)
    (hnc : ¬ contentDiffers (obsidianStateOf o) (msStateOf m))
    (hled : st.lastKnownStates.lookup m.id = none) :
    ((o.completed = true ∧ (msStateOf m).completed = false) →
      (syncExistingTask now st o m).2 = [SyncAction.patchRemote m.id (updateMSToDoPayload o)] ∧
      (syncExistingTask now st o m).1.lastKnownStates.lookup m.id = some ⟨true, now⟩ ∧
      (syncExistingTask now st o m).1.recentlyUpdatedTasks.contains m.id = true) ∧
    (((msStateOf m).completed = true ∧ o.completed = false) →
      (syncExistingTask now st o m).2 = [SyncAction.writeLocalMerge o m] ∧
      (syncExistingTask now st o m).1.lastKnownStates.lookup m.id = some ⟨true, now⟩ ∧
      (syncExistingTask now st o m).1.recentlyUpdatedTasks.contains m.id = true) := by
  have hsup' : m.id ∉ st.recentlyUpdatedTasks := by simpa using hsup
  have hcd : (obsidianStateOf o).completed ≠ (msStateOf m).completed :=
    completed_ne_of_ne_of_not_content _ _ hdiff hnc
  simp only [obsidianStateOf] at hdiff hnc
  constructor
  · rintro ⟨h1, h2⟩
    simp only [h1, h2] at hdiff hnc
    have hrun : syncExistingTask now st o m =
        ({ st with recentlyUpdatedTasks := setAdd st.recentlyUpdatedTasks m.id,
                   lastKnownStates := ledgerSet st.lastKnownStates m.id ⟨true, now⟩ },
          [SyncAction.patchRemote m.id (updateMSToDoPayload o)]) := by
      simp [syncExistingTask, hsup', hdiff, hnc, hled, h1, h2, obsidianStateOf]
    rw [hrun]
    exact ⟨rfl, ledgerSet_lookup_self _ _ _, setAdd_contains_self _ _⟩
  · rintro ⟨h1, h2⟩
    simp only [h1, h2] at hdiff hnc
    have hrun : syncExistingTask now st o m =
        ({ st with recentlyUpdatedTasks := setAdd st.recentlyUpdatedTasks m.id,
                   lastKnownStates := ledgerSet st.lastKnownStates m.id ⟨true, now⟩ },
          [SyncAction.writeLocalMerge o m]) := by
      simp [syncExistingTask, hsup', hdiff, hnc, hled, h1, h2, obsidianStateOf]
    rw [hrun]
    exact ⟨rfl, ledgerSet_lookup_self _ _ _, setAdd_contains_self _ _⟩

/-- C3 witness: first contact (empty ledger), local completed, remote open:
the remote is patched and the ledger is created with `completed=true`. -/
theorem syncExistingTask_no_ledger_bias_witness :
    (syncExistingTask 7 exStateEmpty exLocalDone exRemoteOpen).2 =
      [SyncAction.patchRemote "A1" (updateMSToDoPayload exLocalDone)] ∧
    (syncExistingTask 7 exStateEmpty exLocalDone exRemoteOpen).1.lastKnownStates.lookup "A1" =
      some ⟨true, 7⟩ := by
  have h := (syncExistingTask_no_ledger_bias 7 exStateEmpty exLocalDone exRemoteOpen
      (by decide) (by decide) (by decide) (by decide)).1 ⟨by decide, by decide⟩
  exact ⟨h.1, h.2.1⟩

/-- C4: a pair whose remote identifier is suppressed is skipped entirely:
no write on either side, suppression set and ledger unchanged. -/
theorem syncExistingTask_suppressed_skip (now : Nat) (st : SyncState) (o : ObsidianTask)
    (m : MSToDoTask) (h : st.recentlyUpdatedTasks.contains m.id = true) :
    syncExistingTask now st o m = (st, []) := by
  have h' : m.id ∈ st.recentlyUpdatedTasks := by simpa using h
  simp [syncExistingTask, h']

/-- C4 witness: the suppressed identifier `A1` is skipped even though the
completion flags differ. -/
theorem syncExistingTask_suppressed_skip_witness :
    syncExistingTask 3 exStateSuppressed exLocalDone exRemoteOpen = (exStateSuppressed, []) :=
  syncExistingTask_suppressed_skip 3 exStateSuppressed exLocalDone exRemoteOpen (by decide)

/-- C5: for an unsuppressed pair whose projected states are structurally
equal, no write is issued, the suppression set is unchanged, and the ledger
entry for the identifier is still refreshed to the local completed value
with the current time. -/
theorem syncExistingTask_states_equal_refresh (now : Nat) (st : SyncState) (o : ObsidianTask)
    (m : MSToDoTask)
    (hsup : st.recentlyUpdatedTasks.contains m.id = false)
    (heq : obsidianStateOf o = msStateOf m) :
    (syncExistingTask now st o m).2 = [] ∧
    (syncExistingTask now st o m).1.recentlyUpdatedTasks = st.recentlyUpdatedTasks ∧
    (syncExistingTask now st o m).1.lastKnownStates.lookup m.id = some ⟨o.completed, now⟩ := by
  have hrun : syncExistingTask now st o m =
      ({ st with lastKnownStates :=
          ledgerSet st.lastKnownStates m.id ⟨(obsidianStateOf o).completed, now⟩ }, []) := by
    simp only [syncExistingTask]
    rw [if_neg (by simpa using hsup), if_neg (not_not_intro heq)]
  rw [hrun]
  exact ⟨rfl, rfl, ledgerSet_lookup_self _ _ _⟩

/-- C5 witness: both sides completed with the same title: no write, ledger
refreshed to the local `true`. -/
theorem syncExistingTask_states_equal_refresh_witness :
    (syncExistingTask 9 exStateEmpty exLocalDone exRemoteDone).2 = [] ∧
    (syncExistingTask 9 exStateEmpty exLocalDone exRemoteDone).1.lastKnownStates.lookup "A1" =
      some ⟨true, 9⟩ := by
  have h := syncExistingTask_states_equal_refresh 9 exStateEmpty exLocalDone exRemoteDone
    (by decide) (by decide)
  exact ⟨h.1, h.2.2⟩

/-- C6 counterexample: an ApiError while listing one list's tasks does not
fail the pass — the inner try/catch of `getAllMSToDoTasks` logs it and skips
that list, and the pass still reports overall success (the claim states the
whole pass fails for any indexing failure, including per-list task
listing). -/
theorem taskListingErrorTolerated :
    getAllMSToDoTasks (.ok [exList1]) (fun _ => .error exApiError) = .ok [] ∧
    syncPassOutcome (.ok [exList1]) (fun _ => .error exApiError) = .ok () :=
  ⟨rfl, rfl⟩

/-- C6 amended: an ApiError while listing the lists fails the whole pass and
is surfaced; an ApiError while listing a single list's tasks only drops that
list's tasks and the pass succeeds; an ApiError during a single write-back
is swallowed by `updateMSToDoTask` and the pass succeeds. -/
theorem apiErrorScopes (e : ApiError) (tasksResp : String → Except ApiError (List MSToDoTask))
    (ls : List MSList) (l1 l2 : MSList) (ts : List MSToDoTask)
    (h1 : tasksResp l1.id = .error e) (h2 : tasksResp l2.id = .ok ts) :
    syncPassOutcome (.error e) tasksResp = .error e ∧
    getAllMSToDoTasks (.error e) tasksResp = .error e ∧
    syncPassOutcome (.ok ls) tasksResp = .ok () ∧
    getAllMSToDoTasks (.ok [l1, l2]) tasksResp = .ok ts ∧
    ∀ r, updateMSToDoTaskOutcome r = .ok () := by
  refine ⟨rfl, rfl, ?_, ?_, ?_⟩
  · simp [syncPassOutcome, getAllMSToDoTasks]
  · simp [getAllMSToDoTasks, h1, h2]
  · intro r
    cases r <;> rfl

/-- C6 amended witness: concrete lists where `l1` fails and `l2` answers. -/
theorem apiErrorScopes_witness :
    syncPassOutcome (.error exApiError) exTasksResp = .error exApiError ∧
    getAllMSToDoTasks (.ok [exList1, exList2]) exTasksResp = .ok [exRemoteOpen] := by
  have h := apiErrorScopes exApiError exTasksResp [exList1, exList2] exList1 exList2
    [exRemoteOpen] rfl rfl
  exact ⟨h.1, h.2.2.2.1⟩

/-- C9: the code never consults the configured default list.  With two lists
`Personal` and `Work` and the plugin setting `defaultList = "Work"`,
`getDefaultListId` returns the first list (`Personal`) because neither list
is well-known or named `Tasks`, while the specified resolution order returns
`Work`.  The `defaultList` setting (main.ts lines 18-19, documented as the
"Default Microsoft To Do list for new tasks") is read from the settings UI
but never used by the sync engine. -/
theorem getDefaultListId_ignores_configured_default :
    getDefaultListId exLists = .ok "list-personal" ∧
    getDefaultListIdSpec "Work" exLists = .ok "list-work" ∧
    ("list-personal" : String) ≠ "list-work" :=
  ⟨rfl, rfl, by decide⟩

/-- C10: `updateTaskInContent` leaves the content untouched when the
recorded line index is negative or not less than the number of lines, and
otherwise rewrites exactly that one line, leaving every other line and the
line count intact. -/
theorem updateTaskInContent_line_guard (contentLines : List String)
    (task newTask : ObsidianTask) :
    ((task.line < 0 ∨ (contentLines.length : Int) ≤ task.line) →
      updateTaskInContent contentLines task newTask = contentLines) ∧
    ((0 ≤ task.line ∧ task.line < (contentLines.length : Int)) →
      (updateTaskInContent contentLines task newTask).length = contentLines.length ∧
      (updateTaskInContent contentLines task newTask).getD task.line.toNat "" =
        ((contentLines.getD task.line.toNat "").toList.takeWhile isWsChar).asString ++ "- " ++
          (if newTask.completed then "[x]" else "[ ]") ++ " " ++ newTask.text ∧
      ∀ j : Nat, j ≠ task.line.toNat →
        (updateTaskInContent contentLines task newTask).getD j "" = contentLines.getD j "") := by
  constructor
  · intro h
    have hn : ¬ (0 ≤ task.line ∧ task.line < (contentLines.length : Int)) := by
      rcases h with h | h
      · exact fun hc => absurd hc.1 (by omega)
      · exact fun hc => absurd hc.2 (by omega)
    simp [updateTaskInContent, hn]
  · rintro ⟨h0, hlt⟩
    have hi : task.line.toNat < contentLines.length := by omega
    constructor
    · simp [updateTaskInContent, h0, hlt]
    constructor
    · simp [updateTaskInContent, h0, hlt, List.getD, List.getElem?_set, hi]
    · intro j hj
      simp [updateTaskInContent, h0, hlt, List.getD, List.getElem?_set, Ne.symm hj]

/-- C10 witness: an out-of-range index leaves a two-line file unchanged, and
an in-range index rewrites only that line. -/
theorem updateTaskInContent_line_guard_witness :
    updateTaskInContent ["a", "b"] exLineOutOfRange exLocalDone = ["a", "b"] ∧
    (updateTaskInContent ["a", "b", "c"] exLineInRange exLocalDone).getD 0 "" = "a" := by
  constructor
  · exact (updateTaskInContent_line_guard ["a", "b"] exLineOutOfRange exLocalDone).1
      (by right; decide)
  · exact ((updateTaskInContent_line_guard ["a", "b", "c"] exLineInRange exLocalDone).2
      ⟨by decide, by decide⟩).2.2 0 (by decide)

/-! Lemmas for the merge claim. -/

/-- Converting a character list to a string and back is the identity. -/
theorem asString_toList (l : List Char) : l.asString.toList = l := rfl

/-- A substring occurrence survives appending on the right. -/
theorem listWithin_append (a b c : List Char) (h : listWithin a b) : listWithin a (b ++ c) := by
  obtain ⟨p, q, hpq⟩ := h
  exact ⟨p, q ++ c, by simp [hpq]⟩

/-- The freshly appended piece of an accumulation occurs in the result. -/
theorem listWithin_insert (a t : List Char) : listWithin a (t ++ ' ' :: a) :=
  ⟨t ++ [' '], [], by simp⟩

/-- Occurrences in stage 1 survive stage 2. -/
theorem listWithin_mergeText2 (o : ObsidianTask) (m : MSToDoTask) (s : List Char)
    (h : listWithin s (mergeText1 o m)) : listWithin s (mergeText2 o m) := by
  unfold mergeText2
  cases firstMatchStr (emojiDateAt '🛫') o.text.toList
  · exact h
  · exact listWithin_append _ _ _ h

/-- Occurrences in stage 2 survive stage 3. -/
theorem listWithin_mergeText3 (o : ObsidianTask) (m : MSToDoTask) (s : List Char)
    (h : listWithin s (mergeText2 o m)) : listWithin s (mergeText3 o m) := by
  unfold mergeText3
  cases firstMatchStr (emojiDateAt '⏰') o.text.toList
  · exact h
  · exact listWithin_append _ _ _ h

/-- Occurrences in stage 3 survive stage 4. -/
theorem listWithin_mergeText4 (o : ObsidianTask) (m : MSToDoTask) (s : List Char)
    (h : listWithin s (mergeText3 o m)) : listWithin s (mergeText4 o m) := by
  unfold mergeText4
  cases firstMatchStr recurAt o.text.toList
  · exact h
  · exact listWithin_append _ _ _ h

/-- Occurrences in stage 4 survive stage 5. -/
theorem listWithin_mergeText5 (o : ObsidianTask) (m : MSToDoTask) (s : List Char)
    (h : listWithin s (mergeText4 o m)) : listWithin s (mergeText5 o m) := by
  unfold mergeText5
  split
  · exact listWithin_append _ _ _ h
  split
  · exact listWithin_append _ _ _ h
  · exact h

/-- Occurrences in stage 5 survive stage 6. -/
theorem listWithin_mergeText6 (o : ObsidianTask) (m : MSToDoTask) (s : List Char)
    (h : listWithin s (mergeText5 o m)) : listWithin s (mergeText6 o m) := by
  unfold mergeText6
  cases m.dueDateTime
  · exact h
  · exact listWithin_append _ _ _ h

/-- Occurrences in stage 6 survive the final stage. -/
theorem listWithin_mergeTextFull (o : ObsidianTask) (m : MSToDoTask) (s : List Char)
    (h : listWithin s (mergeText6 o m)) : listWithin s (mergeTextFull o m) := by
  unfold mergeTextFull
  cases firstMatchStr msLinkAt o.text.toList
  · cases firstMatchStr msIdAt o.text.toList
    · exact listWithin_append _ _ _ h
    · exact listWithin_append _ _ _ h
  · exact listWithin_append _ _ _ h

/-- Occurrences in stage 1 survive to the merged text. -/
theorem listWithin_mergeFrom1 (o : ObsidianTask) (m : MSToDoTask) (s : List Char)
    (h : listWithin s (mergeText1 o m)) : listWithin s (mergeTextFull o m) :=
  listWithin_mergeTextFull o m s (listWithin_mergeText6 o m s (listWithin_mergeText5 o m s
    (listWithin_mergeText4 o m s (listWithin_mergeText3 o m s (listWithin_mergeText2 o m s h)))))

/-- Every merge stage keeps the remote title as a prefix. -/
theorem mergeTextFull_title_prefixed (o : ObsidianTask) (m : MSToDoTask) :
    ∃ rest, mergeTextFull o m = m.title.toList ++ rest := by
  have step : ∀ l x : List Char, (∃ r, l = m.title.toList ++ r) →
      ∃ r, l ++ x = m.title.toList ++ r := by
    rintro l x ⟨r, hr⟩
    exact ⟨r ++ x, by simp [hr]⟩
  have h1 : ∃ r, mergeText1 o m = m.title.toList ++ r := by
    unfold mergeText1
    cases firstMatchStr (emojiDateAt '✅') o.text.toList with
    | none => exact ⟨[], by simp⟩
    | some v =>
      by_cases hc : m.status = MSStatus.completed
      · refine ⟨' ' :: v, ?_⟩
        simp [hc]
      · refine ⟨[], ?_⟩
        simp [hc]
  have h2 : ∃ r, mergeText2 o m = m.title.toList ++ r := by
    unfold mergeText2
    cases firstMatchStr (emojiDateAt '🛫') o.text.toList
    · exact h1
    · exact step _ _ h1
  have h3 : ∃ r, mergeText3 o m = m.title.toList ++ r := by
    unfold mergeText3
    cases firstMatchStr (emojiDateAt '⏰') o.text.toList
    · exact h2
    · exact step _ _ h2
  have h4 : ∃ r, mergeText4 o m = m.title.toList ++ r := by
    unfold mergeText4
    cases firstMatchStr recurAt o.text.toList
    · exact h3
    · exact step _ _ h3
  have h5 : ∃ r, mergeText5 o m = m.title.toList ++ r := by
    unfold mergeText5
    by_cases hh : m.importance = Priority.high
    · rw [if_pos hh]
      exact step _ _ h4
    · rw [if_neg hh]
      by_cases hl : m.importance = Priority.low
      · rw [if_pos hl]
        exact step _ _ h4
      · rw [if_neg hl]
        exact h4
  have h6 : ∃ r, mergeText6 o m = m.title.toList ++ r := by
    unfold mergeText6
    cases m.dueDateTime
    · exact h5
    · exact step _ _ h5
  unfold mergeTextFull
  cases firstMatchStr msLinkAt o.text.toList
  · cases firstMatchStr msIdAt o.text.toList
    · exact step _ _ h6
    · exact step _ _ h6
  · exact step _ _ h6

/-- C7 counterexample: merging drops local-only metadata the claim says is
preserved.  The original task carries the tag `#work` and a completion date
marker; after merging with a reopened remote task the merged text contains
neither a `#` character nor a `✅` marker. -/
theorem mergeDropsLocalTags :
    '#' ∈ exLocalMarked.text.toList ∧ exLocalMarked.tags = ["work"] ∧
    '✅' ∈ exLocalMarked.text.toList ∧
    '#' ∉ (mergeTaskWithExisting exLocalMarked exRemoteMerge).text.toList ∧
    '✅' ∉ (mergeTaskWithExisting exLocalMarked exRemoteMerge).text.toList := by
  decide

/-- C7 amended: `mergeTaskWithExisting` takes title, completion, priority,
due date and identifier from the remote task and preserves the Tasks-plugin
start/scheduled/recurrence markers of the original text, and its completion
date marker when the remote task is completed; local tags are not carried
over into the merged text (they were exported to the remote body on
creation). -/
theorem mergePreservesTasksPluginMarkers (o : ObsidianTask) (m : MSToDoTask) :
    (∀ s, firstMatchStr (emojiDateAt '✅') o.text.toList = some s → m.status = .completed →
      listWithin s (mergeTaskWithExisting o m).text.toList) ∧
    (∀ s, firstMatchStr (emojiDateAt '🛫') o.text.toList = some s →
      listWithin s (mergeTaskWithExisting o m).text.toList) ∧
    (∀ s, firstMatchStr (emojiDateAt '⏰') o.text.toList = some s →
      listWithin s (mergeTaskWithExisting o m).text.toList) ∧
    (∀ s, firstMatchStr recurAt o.text.toList = some s →
      listWithin s (mergeTaskWithExisting o m).text.toList) ∧
    (∃ rest, (mergeTaskWithExisting o m).text.toList = m.title.toList ++ rest) ∧
    (mergeTaskWithExisting o m).completed = decide (m.status = .completed) ∧
    (mergeTaskWithExisting o m).priority =
      (if m.importance = .normal then none else some m.importance) ∧
    (mergeTaskWithExisting o m).dueDate = m.dueDateTime.map (fun dt => isoDatePart dt.dateTime) ∧
    (mergeTaskWithExisting o m).msToDoId = some m.id := by
  have htext : (mergeTaskWithExisting o m).text.toList = mergeTextFull o m := rfl
  refine ⟨?_, ?_, ?_, ?_, ?_, rfl, rfl, rfl, rfl⟩
  · intro s hs hc
    rw [htext]
    apply listWithin_mergeFrom1
    have hs' : firstMatchStr (emojiDateAt '✅') o.text.data = some s := hs
    have hm : mergeText1 o m = m.title.toList ++ ' ' :: s := by
      simp [mergeText1, hs', hc]
    rw [hm]
    exact listWithin_insert _ _
  · intro s hs
    rw [htext]
    apply listWithin_mergeTextFull
    apply listWithin_mergeText6
    apply listWithin_mergeText5
    apply listWithin_mergeText4
    apply listWithin_mergeText3
    have hs' : firstMatchStr (emojiDateAt '🛫') o.text.data = some s := hs
    have hm : mergeText2 o m = mergeText1 o m ++ ' ' :: s := by
      simp [mergeText2, hs']
    rw [hm]
    exact listWithin_insert _ _
  · intro s hs
    rw [htext]
    apply listWithin_mergeTextFull
    apply listWithin_mergeText6
    apply listWithin_mergeText5
    apply listWithin_mergeText4
    have hs' : firstMatchStr (emojiDateAt '⏰') o.text.data = some s := hs
    have hm : mergeText3 o m = mergeText2 o m ++ ' ' :: s := by
      simp [mergeText3, hs']
    rw [hm]
    exact listWithin_insert _ _
  · intro s hs
    rw [htext]
    apply listWithin_mergeTextFull
    apply listWithin_mergeText6
    apply listWithin_mergeText5
    have hs' : firstMatchStr recurAt o.text.data = some s := hs
    have hm : mergeText4 o m = mergeText3 o m ++ ' ' :: s := by
      simp [mergeText4, hs']
    rw [hm]
    exact listWithin_insert _ _
  · rw [htext]
    exact mergeTextFull_title_prefixed o m

/-- C7 amended witness: the start date marker of the concrete marked task
survives the merge. -/
theorem mergePreservesTasksPluginMarkers_witness :
    listWithin "🛫 2024-01-01".toList
      (mergeTaskWithExisting exLocalMarked exRemoteMerge).text.toList :=
  (mergePreservesTasksPluginMarkers exLocalMarked exRemoteMerge).2.1 "🛫 2024-01-01".toList
    (by decide)

/-! Lemma library for the round-trip claim: behaviour of the embedded
regex replacers on strings decomposed as plain text plus markers. -/

/-- `replaceFirst` distributes over an append whose left part contains no
character that can start a match of `m`. -/
theorem replaceFirst_append_gate (m : List Char → Option Nat) (p : Char → Prop)
    (hm : ∀ c cs, ¬ p c → m (c :: cs) = none) (l₁ l₂ : List Char)
    (h : ∀ c ∈ l₁, ¬ p c) :
    replaceFirst m (l₁ ++ l₂) = l₁ ++ replaceFirst m l₂ := by
  induction l₁ with
  | nil => simp
  | cons c cs ih =>
    simp only [List.cons_append, replaceFirst, hm c _ (h c (by simp))]
    exact congrArg (c :: ·) (ih (fun x hx => h x (by simp [hx])))

/-- `replaceFirst` is the identity on a list with no match-starting
character. -/
theorem replaceFirst_eq_self_gate (m : List Char → Option Nat) (p : Char → Prop)
    (hm : ∀ c cs, ¬ p c → m (c :: cs) = none) (l : List Char)
    (h : ∀ c ∈ l, ¬ p c) :
    replaceFirst m l = l := by
  have := replaceFirst_append_gate m p hm l [] h
  simpa [replaceFirst] using this

/-- The fuel-indexed global replacer is the identity on a list with no
match-starting character. -/
theorem replaceAllF_eq_self_gate (m : List Char → Option Nat) (p : Char → Prop)
    (hm : ∀ c cs, ¬ p c → m (c :: cs) = none) :
    ∀ (fuel : Nat) (l : List Char), (∀ c ∈ l, ¬ p c) → replaceAllF m fuel l = l := by
  intro fuel
  induction fuel with
  | zero => intro l _; rfl
  | succ n ih =>
    intro l h
    cases l with
    | nil => rfl
    | cons c cs =>
      simp only [replaceAllF, hm c _ (h c (by simp))]
      rw [ih cs (fun x hx => h x (by simp [hx]))]

/-- `replaceAll` is the identity on a list with no match-starting
character. -/
theorem replaceAll_eq_self_gate (m : List Char → Option Nat) (p : Char → Prop)
    (hm : ∀ c cs, ¬ p c → m (c :: cs) = none) (l : List Char)
    (h : ∀ c ∈ l, ¬ p c) :
    replaceAll m l = l :=
  replaceAllF_eq_self_gate m p hm l.length l h

/-- A failed match at the head makes `replaceFirst` keep the head. -/
theorem replaceFirst_cons_of_none (m : List Char → Option Nat) (c : Char) (cs : List Char)
    (h : m (c :: cs) = none) : replaceFirst m (c :: cs) = c :: replaceFirst m cs := by
  simp [replaceFirst, h]

/-- A successful match at the head makes `replaceFirst` drop the match. -/
theorem replaceFirst_cons_of_match (m : List Char → Option Nat) (c : Char) (cs : List Char)
    (n : Nat) (h : m (c :: cs) = some n) : replaceFirst m (c :: cs) = (c :: cs).drop n := by
  simp [replaceFirst, h]

/-- A literal matcher fails when the first characters disagree. -/
theorem expectLit_cons_ne (a : Char) (as : List Char) (c : Char) (cs : List Char)
    (h : c ≠ a) : expectLit (a :: as) (c :: cs) = none := by
  simp [expectLit, h]

/-- A literal matcher succeeds on the literal itself followed by anything. -/
theorem expectLit_self_append (lit r : List Char) : expectLit lit (lit ++ r) = some r := by
  induction lit with
  | nil => rfl
  | cons a as ih => simp [expectLit, ih]

/-- The id-marker matcher needs a `[` first. -/
theorem msIdAt_gate (c : Char) (cs : List Char) (h : ¬ c = '[') : msIdAt (c :: cs) = none := by
  have he : expectLit ['[', 'm', 's', '-', 't', 'o', 'd', 'o', ':'] (c :: cs) = none :=
    expectLit_cons_ne _ _ _ _ h
  simp [msIdAt, he]

/-- The link-marker matcher needs a `[` first. -/
theorem msLinkAt_gate (c : Char) (cs : List Char) (h : ¬ c = '[') : msLinkAt (c :: cs) = none := by
  have he : expectLit
      ['[', '🔗', ' ', 'M', 'S', ' ', 'T', 'o', ' ', 'D', 'o', ']', '(', 'm', 's', '-', 't', 'o', 'd', 'o', ':']
      (c :: cs) = none :=
    expectLit_cons_ne _ _ _ _ h
  simp [msLinkAt, he]

/-- The id-marker matcher fails at the head of a link marker (the second
literal character is `m`, not `🔗`). -/
theorem msIdAt_link_none (r : List Char) : msIdAt ('[' :: '🔗' :: r) = none := by
  have he : expectLit ['[', 'm', 's', '-', 't', 'o', 'd', 'o', ':'] ('[' :: '🔗' :: r) = none := by
    simp only [expectLit, if_pos rfl]
    exact expectLit_cons_ne 'm' ['s', '-', 't', 'o', 'd', 'o', ':'] '🔗' r (by decide)
  simp [msIdAt, he]

/-- The marker-plus-date matchers need their marker first. -/
theorem emojiDateAt_gate (mark c : Char) (cs : List Char) (h : ¬ c = mark) :
    emojiDateAt mark (c :: cs) = none := by
  simp [emojiDateAt, h]

/-- The priority matcher needs one of its three markers first. -/
theorem prioAt_gate (c : Char) (cs : List Char)
    (h : ¬ (c = '🔺' ∨ c = '⏫' ∨ c = '🔻')) : prioAt (c :: cs) = none := by
  push_neg at h
  obtain ⟨h1, h2, h3⟩ := h
  simp [prioAt, h1, h2, h3]

/-- The tag matcher needs a `#` first. -/
theorem tagAt_gate (c : Char) (cs : List Char) (h : ¬ c = '#') : tagAt (c :: cs) = none := by
  simp [tagAt, h]

/-- The recurrence matcher needs a `🔁` first. -/
theorem recurAt_gate (c : Char) (cs : List Char) (h : ¬ c = '🔁') : recurAt (c :: cs) = none := by
  simp [recurAt, h]

/-- `takeWhile` stops exactly at the first failing character. -/
theorem takeWhile_append_stop (p : Char → Bool) (l₁ : List Char)
    (h : ∀ c ∈ l₁, p c = true) (c : Char) (hc : p c = false) (l₂ : List Char) :
    (l₁ ++ c :: l₂).takeWhile p = l₁ := by
  induction l₁ with
  | nil => simp [List.takeWhile_cons, hc]
  | cons a as ih =>
    simp only [List.cons_append, List.takeWhile_cons, h a (by simp)]
    rw [ih (fun x hx => h x (by simp [hx]))]
    simp

/-- `dropWhile` stops exactly at the first failing character. -/
theorem dropWhile_append_stop (p : Char → Bool) (l₁ : List Char)
    (h : ∀ c ∈ l₁, p c = true) (c : Char) (hc : p c = false) (l₂ : List Char) :
    (l₁ ++ c :: l₂).dropWhile p = c :: l₂ := by
  induction l₁ with
  | nil => simp [List.dropWhile_cons, hc]
  | cons a as ih =>
    simp only [List.cons_append, List.dropWhile_cons, h a (by simp)]
    rw [ih (fun x hx => h x (by simp [hx]))]
    simp

/-- Digits are not whitespace. -/
theorem digit_not_ws (c : Char) (h : c.isDigit = true) : isWsChar c = false := by
  by_contra hw
  rw [Bool.not_eq_false] at hw
  simp [isWsChar] at hw
  rcases hw with ((h' | h') | h') | h' <;> subst h' <;> exact absurd h (by decide)

/-- A digit differs from every non-digit character. -/
theorem digit_ne_of (c k : Char) (h : c.isDigit = true) (hk : k.isDigit = false) : c ≠ k := by
  intro e
  rw [e, hk] at h
  cases h

/-- Inversion of the exact date shape. -/
theorem dateShapeExact_spec (l : List Char) (h : dateShapeExact l = true) :
    ∃ y1 y2 y3 y4 m1 m2 d1 d2,
      l = [y1, y2, y3, y4, '-', m1, m2, '-', d1, d2] ∧
      y1.isDigit = true ∧ y2.isDigit = true ∧ y3.isDigit = true ∧ y4.isDigit = true ∧
      m1.isDigit = true ∧ m2.isDigit = true ∧ d1.isDigit = true ∧ d2.isDigit = true := by
  unfold dateShapeExact at h
  split at h
  · next y1 y2 y3 y4 m1 m2 d1 d2 =>
    simp only [Bool.and_eq_true] at h
    exact ⟨y1, y2, y3, y4, m1, m2, d1, d2, rfl,
      h.1.1.1.1.1.1.1, h.1.1.1.1.1.1.2, h.1.1.1.1.1.2, h.1.1.1.1.2,
      h.1.1.1.2, h.1.1.2, h.1.2, h.2⟩
  · cases h

/-- Boolean form of character disequality used by the stop lemmas. -/
theorem bne_true_of_ne (c k : Char) (h : c ≠ k) : (c != k) = true := by
  simpa using h

/-- The link-marker matcher consumes exactly a whole link marker standing at
the head: the literal, a nonempty identifier without `)`, and the closing
parenthesis. -/
theorem msLinkAt_match (idL tail : List Char) (hne : idL ≠ [])
    (hid : ∀ c ∈ idL, c ≠ ')') :
    msLinkAt ("[🔗 MS To Do](ms-todo:".toList ++ (idL ++ ')' :: tail)) =
      some ("[🔗 MS To Do](ms-todo:".toList.length + idL.length + 1) := by
  cases idL with
  | nil => exact absurd rfl hne
  | cons a as =>
    have hp : ∀ c ∈ a :: as, (fun c => c != ')') c = true := fun c hc => by
      simpa using hid c hc
    have ht : List.takeWhile (fun c => c != ')') (a :: (as ++ ')' :: tail)) = a :: as := by
      simpa using takeWhile_append_stop (fun c => c != ')') (a :: as) hp ')' (by simp) tail
    have hd : List.dropWhile (fun c => c != ')') (a :: (as ++ ')' :: tail)) = ')' :: tail := by
      simpa using dropWhile_append_stop (fun c => c != ')') (a :: as) hp ')' (by simp) tail
    simp [msLinkAt, expectLit, ht, hd]

/-- Unpack `plainChar` into the ten disequalities it encodes. -/
theorem plainChar_spec (c : Char) (h : plainChar c = true) :
    ¬ c = '📅' ∧ ¬ c = '🔺' ∧ ¬ c = '⏫' ∧ ¬ c = '🔻' ∧ ¬ c = '#' ∧ ¬ c = '[' ∧
    ¬ c = '✅' ∧ ¬ c = '🛫' ∧ ¬ c = '⏰' ∧ ¬ c = '🔁' := by
  have h' := h
  simp [plainChar, not_or] at h'
  tauto

/-- The id-marker replacer leaves a link marker with a bracket-free
identifier untouched: the literal prefix `[🔗` defeats the `[ms-todo:`
literal and no other `[` occurs. -/
theorem rmId_keeps_link (idL : List Char) (hid : ∀ c ∈ idL, ¬ c = '[') :
    replaceFirst msIdAt ("[🔗 MS To Do](ms-todo:".toList ++ (idL ++ [')'])) =
      "[🔗 MS To Do](ms-todo:".toList ++ (idL ++ [')']) := by
  have hmem : ∀ c ∈ ('🔗' :: (" MS To Do](ms-todo:".toList ++ (idL ++ [')']))), ¬ c = '[' := by
    intro c hc
    rcases List.mem_cons.mp hc with rfl | hc
    · decide
    rcases List.mem_append.mp hc with hc | hc
    · have hall : ∀ c ∈ " MS To Do](ms-todo:".toList, ¬ c = '[' := by decide
      exact hall c hc
    rcases List.mem_append.mp hc with hc | hc
    · exact hid c hc
    · have hc' : c = ')' := by simpa using hc
      subst hc'
      decide
  show replaceFirst msIdAt ('[' :: '🔗' :: (" MS To Do](ms-todo:".toList ++ (idL ++ [')']))) = _
  rw [replaceFirst_cons_of_none _ _ _ (msIdAt_link_none _)]
  rw [replaceFirst_eq_self_gate msIdAt (fun c => c = '[') msIdAt_gate _ hmem]
  exact rfl

/-- The link-marker replacer removes exactly the link marker at the end of a
bracket-free prefix. -/
theorem rmLink_removes (P idL : List Char) (hP : ∀ c ∈ P ++ [' '], ¬ c = '[')
    (hne : idL ≠ []) (hid : ∀ c ∈ idL, ¬ c = ')') :
    replaceFirst msLinkAt ((P ++ [' ']) ++ ("[🔗 MS To Do](ms-todo:".toList ++ (idL ++ [')']))) =
      P ++ [' '] := by
  rw [replaceFirst_append_gate msLinkAt (fun c => c = '[') msLinkAt_gate _ _ hP]
  have hm := msLinkAt_match idL [] hne (fun c hc => hid c hc)
  have hm' : msLinkAt ('[' :: ("🔗 MS To Do](ms-todo:".toList ++ (idL ++ [')']))) =
      some ("[🔗 MS To Do](ms-todo:".toList.length + idL.length + 1) := hm
  rw [show "[🔗 MS To Do](ms-todo:".toList ++ (idL ++ [')']) =
      '[' :: ("🔗 MS To Do](ms-todo:".toList ++ (idL ++ [')'])) from rfl]
  rw [replaceFirst_cons_of_match _ _ _ _ hm']
  have hlen : "[🔗 MS To Do](ms-todo:".toList.length + idL.length + 1 =
      ('[' :: ("🔗 MS To Do](ms-todo:".toList ++ (idL ++ [')']))).length := by
    simp
    omega
  rw [hlen, List.drop_length]
  simp

/-- The due-date replacer removes exactly the `📅 YYYY-MM-DD` chunk at the
end of a marker-free prefix. -/
theorem rmDue_removes (P tail dL : List Char) (hP : ∀ c ∈ P ++ [' '], ¬ c = '📅')
    (hd : dateShapeExact dL = true) :
    replaceFirst (emojiDateAt '📅') ((P ++ [' ']) ++ ('📅' :: ' ' :: (dL ++ tail))) =
      (P ++ [' ']) ++ tail := by
  rw [replaceFirst_append_gate _ (fun c => c = '📅') (emojiDateAt_gate '📅') _ _ hP]
  obtain ⟨y1, y2, y3, y4, m1, m2, d1, d2, rfl, h1, h2, h3, h4, h5, h6, h7, h8⟩ :=
    dateShapeExact_spec dL hd
  have hws : isWsChar ' ' = true := by decide
  have hm : emojiDateAt '📅'
      ('📅' :: ' ' :: ([y1, y2, y3, y4, '-', m1, m2, '-', d1, d2] ++ tail)) = some 12 := by
    simp [emojiDateAt, matchDateShape, List.dropWhile_cons, List.takeWhile_cons, hws,
      digit_not_ws y1 h1, h1, h2, h3, h4, h5, h6, h7, h8]
  rw [replaceFirst_cons_of_match _ _ _ _ hm]
  simp

/-- The priority replacer removes exactly the rendered priority marker at
the end of a marker-free prefix. -/
theorem rmPrio_removes (P tail : List Char) (pc : Char) (hpc : pc = '🔺' ∨ pc = '🔻')
    (hP : ∀ c ∈ P ++ [' '], ¬ (c = '🔺' ∨ c = '⏫' ∨ c = '🔻')) :
    replaceFirst prioAt ((P ++ [' ']) ++ (pc :: tail)) = (P ++ [' ']) ++ tail := by
  rw [replaceFirst_append_gate prioAt (fun c => c = '🔺' ∨ c = '⏫' ∨ c = '🔻') prioAt_gate
    _ _ hP]
  have hm : prioAt (pc :: tail) = some 1 := by
    rcases hpc with rfl | rfl <;> simp [prioAt]
  rw [replaceFirst_cons_of_match _ _ _ _ hm]
  simp

/-! Properties of whitespace collapsing and trimming, up to the idempotence
of `trimWs ∘ collapseWs` and its absorption of trailing whitespace. -/

/-- With the flag set, an all-whitespace input collapses to nothing. -/
theorem collapseAux_true_allWs (w : List Char) (hw : ∀ c ∈ w, isWsChar c = true) :
    collapseAux true w = [] := by
  induction w with
  | nil => rfl
  | cons c cs ih =>
    simp only [collapseAux, hw c (by simp), if_true]
    exact ih (fun x hx => hw x (by simp [hx]))

/-- Collapsing an all-whitespace input then trimming gives nothing. -/
theorem trimEnd_collapseAux_allWs (w : List Char) (hw : ∀ c ∈ w, isWsChar c = true) (b : Bool) :
    trimEnd (collapseAux b w) = [] := by
  cases b
  · cases w with
    | nil => rfl
    | cons c cs =>
      simp only [collapseAux, hw c (by simp), if_true, Bool.false_eq_true, if_false,
        collapseAux_true_allWs cs (fun x hx => hw x (by simp [hx]))]
      decide
  · rw [collapseAux_true_allWs w hw]
    rfl

/-- Peeling one character off `trimEnd`. -/
theorem trimEnd_cons (a : Char) (y : List Char) :
    trimEnd (a :: y) =
      if trimEnd y = [] then (if isWsChar a = true then [] else [a]) else a :: trimEnd y := by
  unfold trimEnd
  rw [List.reverse_cons, List.dropWhile_append]
  by_cases h : (List.dropWhile isWsChar y.reverse).isEmpty = true
  · rw [if_pos h]
    have h0 : (List.dropWhile isWsChar y.reverse).reverse = [] := by
      rw [List.isEmpty_iff.mp h]
      rfl
    rw [if_pos h0]
    by_cases ha : isWsChar a = true
    · simp [List.dropWhile, ha]
    · have ha' : isWsChar a = false := by
        revert ha
        cases isWsChar a <;> simp
      simp [List.dropWhile, ha']
  · rw [if_neg h]
    have h0 : (List.dropWhile isWsChar y.reverse).reverse ≠ [] := by
      intro h1
      rw [List.reverse_eq_nil_iff] at h1
      rw [h1] at h
      exact h rfl
    rw [if_neg h0, List.reverse_append]
    rfl

/-- `trimEnd` only looks at the tail: congruence under a common head. -/
theorem trimEnd_cons_congr (a : Char) (x y : List Char) (h : trimEnd x = trimEnd y) :
    trimEnd (a :: x) = trimEnd (a :: y) := by
  rw [trimEnd_cons, trimEnd_cons, h]

/-- Trailing whitespace does not change the collapsed-and-trimmed text. -/
theorem trimEnd_collapseAux_append_ws (w : List Char) (hw : ∀ c ∈ w, isWsChar c = true) :
    ∀ (l : List Char) (b : Bool),
      trimEnd (collapseAux b (l ++ w)) = trimEnd (collapseAux b l) := by
  intro l
  induction l with
  | nil =>
    intro b
    rw [List.nil_append, trimEnd_collapseAux_allWs w hw b]
    rfl
  | cons c cs ih =>
    intro b
    by_cases hc : isWsChar c = true
    · cases b
      · simp only [List.cons_append, collapseAux, hc, if_true, Bool.false_eq_true, if_false]
        exact trimEnd_cons_congr ' ' _ _ (ih true)
      · simp only [List.cons_append, collapseAux, hc, if_true]
        exact ih true
    · have hc' : isWsChar c = false := by
        revert hc
        cases isWsChar c <;> simp
      simp only [List.cons_append, collapseAux, hc', Bool.false_eq_true, if_false]
      exact trimEnd_cons_congr c _ _ (ih false)

/-- Trailing whitespace vanishes under `trimWs ∘ collapseWs`. -/
theorem trimWs_collapseWs_append_ws (l w : List Char) (hw : ∀ c ∈ w, isWsChar c = true) :
    trimWs (collapseWs (l ++ w)) = trimWs (collapseWs l) := by
  unfold trimWs collapseWs
  rw [trimEnd_collapseAux_append_ws w hw l false]

/-- Unfolding `noAdjSp` on two explicit heads. -/
theorem noAdjSp_cons₂ (a b : Char) (l : List Char) :
    noAdjSp (a :: b :: l) ↔ ¬ (a = ' ' ∧ b = ' ') ∧ noAdjSp (b :: l) :=
  Iff.rfl

/-- `noAdjSp` restricted to a tail. -/
theorem noAdjSp_tail (c : Char) (l : List Char) (h : noAdjSp (c :: l)) : noAdjSp l := by
  cases l with
  | nil => trivial
  | cons b bs => exact h.2

/-- Build `noAdjSp` from a head condition and the tail. -/
theorem noAdjSp_cons_of (a : Char) (l : List Char)
    (h1 : ∀ b, l.head? = some b → ¬ (a = ' ' ∧ b = ' ')) (h2 : noAdjSp l) :
    noAdjSp (a :: l) := by
  cases l with
  | nil => trivial
  | cons b bs => exact ⟨h1 b rfl, h2⟩

/-- `noAdjSp` holds of every left factor of an append. -/
theorem noAdjSp_append_left (t b : List Char) (h : noAdjSp (t ++ b)) : noAdjSp t := by
  induction t with
  | nil => trivial
  | cons x xs ih =>
    cases xs with
    | nil => trivial
    | cons y ys =>
      have h' : noAdjSp (x :: y :: (ys ++ b)) := h
      exact ⟨h'.1, ih h'.2⟩

/-- `noAdjSp` holds of every right factor of an append. -/
theorem noAdjSp_suffix (a t : List Char) (h : noAdjSp (a ++ t)) : noAdjSp t := by
  induction a with
  | nil => exact h
  | cons x xs ih => exact ih (noAdjSp_tail _ _ h)

/-- After the flag is set, the collapsed output never starts with
whitespace. -/
theorem collapseAux_head_not_ws (l : List Char) :
    ∀ c, (collapseAux true l).head? = some c → isWsChar c = false := by
  induction l with
  | nil => intro c h; cases h
  | cons a as ih =>
    intro c h
    by_cases ha : isWsChar a = true
    · simp only [collapseAux, ha, if_true] at h
      exact ih c h
    · have ha' : isWsChar a = false := by
        revert ha
        cases isWsChar a <;> simp
      simp only [collapseAux, ha', Bool.false_eq_true, if_false, List.head?_cons,
        Option.some.injEq] at h
      rw [← h]
      exact ha'

/-- Collapsed text uses `' '` as its only whitespace. -/
theorem collapseAux_wsOnly (b : Bool) (l : List Char) : wsOnlySpace (collapseAux b l) := by
  induction l generalizing b with
  | nil => intro c hc; cases hc
  | cons a as ih =>
    by_cases ha : isWsChar a = true
    · cases b
      · simp only [collapseAux, ha, if_true, Bool.false_eq_true, if_false]
        intro c hc hw
        rcases List.mem_cons.mp hc with rfl | hc
        · rfl
        · exact ih true c hc hw
      · simp only [collapseAux, ha, if_true]
        exact ih true
    · have ha' : isWsChar a = false := by
        revert ha
        cases isWsChar a <;> simp
      simp only [collapseAux, ha', Bool.false_eq_true, if_false]
      intro c hc hw
      rcases List.mem_cons.mp hc with rfl | hc
      · rw [hw] at ha'
        cases ha'
      · exact ih false c hc hw

/-- Collapsed text has no two adjacent spaces. -/
theorem collapseAux_noAdj (b : Bool) (l : List Char) : noAdjSp (collapseAux b l) := by
  induction l generalizing b with
  | nil => trivial
  | cons a as ih =>
    by_cases ha : isWsChar a = true
    · cases b
      · simp only [collapseAux, ha, if_true, Bool.false_eq_true, if_false]
        apply noAdjSp_cons_of
        · intro bb hb hcon
          have hbb := collapseAux_head_not_ws as bb hb
          rw [hcon.2] at hbb
          cases hbb
        · exact ih true
      · simp only [collapseAux, ha, if_true]
        exact ih true
    · have ha' : isWsChar a = false := by
        revert ha
        cases isWsChar a <;> simp
      simp only [collapseAux, ha', Bool.false_eq_true, if_false]
      apply noAdjSp_cons_of
      · intro bb hb hcon
        rw [hcon.1] at ha'
        cases ha'
      · exact ih false

/-- A list splits as its trimmed front followed by its trailing
whitespace. -/
theorem trimEnd_decomp (l : List Char) :
    l = trimEnd l ++ (l.reverse.takeWhile isWsChar).reverse := by
  conv_lhs => rw [← List.reverse_reverse l,
    ← List.takeWhile_append_dropWhile isWsChar l.reverse]
  rw [List.reverse_append]
  rfl

/-- Membership transfers from the trimmed front to the list. -/
theorem mem_of_mem_trimEnd (l : List Char) (c : Char) (h : c ∈ trimEnd l) : c ∈ l := by
  rw [trimEnd_decomp l]
  exact List.mem_append.mpr (Or.inl h)

/-- Membership transfers from the dropWhile suffix to the list. -/
theorem mem_of_mem_dropWhile (p : Char → Bool) (l : List Char) (c : Char)
    (h : c ∈ l.dropWhile p) : c ∈ l := by
  have h2 := List.takeWhile_append_dropWhile p l
  rw [← h2]
  exact List.mem_append.mpr (Or.inr h)

/-- The head of a dropWhile suffix fails the predicate. -/
theorem dropWhile_head_not (p : Char → Bool) (l : List Char) :
    ∀ c, (l.dropWhile p).head? = some c → p c = false := by
  induction l with
  | nil => intro c h; cases h
  | cons a as ih =>
    intro c h
    by_cases ha : p a = true
    · rw [List.dropWhile_cons, if_pos ha] at h
      exact ih c h
    · have ha' : p a = false := by
        revert ha
        cases p a <;> simp
      rw [List.dropWhile_cons, if_neg (by simp [ha'])] at h
      simp only [List.head?_cons, Option.some.injEq] at h
      rw [← h]
      exact ha'

/-- The last character of a trimmed list is not whitespace. -/
theorem getLast?_trimEnd_not_ws (l : List Char) :
    ∀ c, (trimEnd l).getLast? = some c → isWsChar c = false := by
  intro c h
  unfold trimEnd at h
  rw [List.getLast?_reverse] at h
  exact dropWhile_head_not _ _ c h

/-- On text whose whitespace is single spaces with no two adjacent,
collapsing is the identity. -/
theorem collapse_fix (l : List Char) (hws : wsOnlySpace l) (hadj : noAdjSp l) :
    collapseAux false l = l ∧ (l.head? ≠ some ' ' → collapseAux true l = l) := by
  induction l with
  | nil => exact ⟨rfl, fun _ => rfl⟩
  | cons a as ih =>
    have ihs := ih (fun c hc => hws c (by simp [hc])) (noAdjSp_tail _ _ hadj)
    by_cases ha : isWsChar a = true
    · have ha' : a = ' ' := hws a (by simp) ha
      subst ha'
      constructor
      · have hh : as.head? ≠ some ' ' := by
          cases as with
          | nil => simp
          | cons b bs =>
            intro hb
            simp only [List.head?_cons, Option.some.injEq] at hb
            exact hadj.1 ⟨rfl, hb⟩
        simp only [collapseAux, ha, if_true, Bool.false_eq_true, if_false]
        rw [ihs.2 hh]
      · intro hh
        exact absurd rfl hh
    · have ha' : isWsChar a = false := by
        revert ha
        cases isWsChar a <;> simp
      constructor
      · simp only [collapseAux, ha', Bool.false_eq_true, if_false]
        rw [ihs.1]
      · intro _
        simp only [collapseAux, ha', Bool.false_eq_true, if_false]
        rw [ihs.1]

/-- `dropWhile` is the identity when the head already fails the
predicate. -/
theorem dropWhile_eq_self_of_head (p : Char → Bool) (l : List Char)
    (h : ∀ c, l.head? = some c → p c = false) : l.dropWhile p = l := by
  cases l with
  | nil => rfl
  | cons a as =>
    rw [List.dropWhile_cons, if_neg (by simp [h a rfl])]

/-- `trimEnd` is the identity when the last character is not whitespace. -/
theorem trimEnd_eq_self_of_last (l : List Char)
    (h : ∀ c, l.getLast? = some c → isWsChar c = false) : trimEnd l = l := by
  unfold trimEnd
  rw [dropWhile_eq_self_of_head isWsChar l.reverse
    (fun c hc => h c (by rwa [List.head?_reverse] at hc))]
  exact List.reverse_reverse l

/-- `trimWs ∘ collapseWs` is idempotent. -/
theorem trimWs_collapseWs_idem (x : List Char) :
    trimWs (collapseWs (trimWs (collapseWs x))) = trimWs (collapseWs x) := by
  have hws : wsOnlySpace (collapseWs x) := collapseAux_wsOnly false x
  have hadj : noAdjSp (collapseWs x) := collapseAux_noAdj false x
  have hwsT : wsOnlySpace (trimWs (collapseWs x)) := by
    intro c hc hw
    exact hws c (mem_of_mem_trimEnd _ _ (mem_of_mem_dropWhile _ _ _ hc)) hw
  have hadjT : noAdjSp (trimWs (collapseWs x)) := by
    have h1 : noAdjSp (trimEnd (collapseWs x)) := by
      apply noAdjSp_append_left _ ((collapseWs x).reverse.takeWhile isWsChar).reverse
      rw [← trimEnd_decomp]
      exact hadj
    have h3 : noAdjSp (List.dropWhile isWsChar (trimEnd (collapseWs x))) := by
      apply noAdjSp_suffix (List.takeWhile isWsChar (trimEnd (collapseWs x)))
      rw [List.takeWhile_append_dropWhile]
      exact h1
    exact h3
  have hhead : ∀ c, (trimWs (collapseWs x)).head? = some c → isWsChar c = false :=
    fun c hc => dropWhile_head_not _ _ c hc
  have hlast : ∀ c, (trimWs (collapseWs x)).getLast? = some c → isWsChar c = false := by
    intro c hc
    have hne : trimWs (collapseWs x) ≠ [] := by
      intro h0
      rw [h0] at hc
      cases hc
    have hne' : List.dropWhile isWsChar (trimEnd (collapseWs x)) ≠ [] := hne
    have he : (trimEnd (collapseWs x)).getLast? = some c := by
      conv_lhs => rw [← List.takeWhile_append_dropWhile isWsChar (trimEnd (collapseWs x))]
      rw [List.getLast?_append_of_ne_nil _ hne']
      exact hc
    exact getLast?_trimEnd_not_ws _ c he
  have hcol : collapseWs (trimWs (collapseWs x)) = trimWs (collapseWs x) :=
    (collapse_fix _ hwsT hadjT).1
  have e1 : trimEnd (trimWs (collapseWs x)) = trimWs (collapseWs x) :=
    trimEnd_eq_self_of_last _ hlast
  have e2 : List.dropWhile isWsChar (trimWs (collapseWs x)) = trimWs (collapseWs x) :=
    dropWhile_eq_self_of_head _ _ hhead
  calc trimWs (collapseWs (trimWs (collapseWs x)))
      = trimWs (trimWs (collapseWs x)) := by rw [hcol]
    _ = List.dropWhile isWsChar (trimEnd (trimWs (collapseWs x))) := rfl
    _ = List.dropWhile isWsChar (trimWs (collapseWs x)) := by rw [e1]
    _ = trimWs (collapseWs x) := e2

/-- A plain character differs from every non-plain character. -/
theorem plain_ne (c k : Char) (hc : plainChar c = true) (hk : plainChar k = false) :
    ¬ c = k := by
  intro e
  rw [e, hk] at hc
  cases hc

/-- Digits are plain characters. -/
theorem digit_plain (c : Char) (h : c.isDigit = true) : plainChar c = true := by
  by_contra hx
  have hx' : plainChar c = false := by
    revert hx
    cases plainChar c <;> simp
  simp only [plainChar, Bool.not_eq_false', Bool.or_eq_true, decide_eq_true_eq, or_assoc] at hx'
  rcases hx' with rfl | rfl | rfl | rfl | rfl | rfl | rfl | rfl | rfl | rfl <;>
    exact absurd h (by decide)

/-- The last six normalization stages (tag removal, the four Tasks-plugin
marker removals and the duplicate completion removal, then collapse and
trim) turn plain text followed by leftover spaces into the trimmed,
collapsed plain text. -/
theorem cleanList_tail_plain (T sp : List Char)
    (hT : ∀ c ∈ T, plainChar c = true)
    (hsp : ∀ c ∈ sp, c = ' ') :
    trimWs (collapseWs (
      replaceFirst (emojiDateAt '✅')
      (replaceFirst recurAt
      (replaceFirst (emojiDateAt '⏰')
      (replaceFirst (emojiDateAt '🛫')
      (replaceFirst (emojiDateAt '✅')
      (replaceAll tagAt (T ++ sp)))))))) = trimWs (collapseWs T) := by
  have hmem : ∀ (k : Char), plainChar k = false →
      ∀ c ∈ T ++ sp, ¬ c = k := by
    intro k hk c hc
    rcases List.mem_append.mp hc with hc | hc
    · exact plain_ne c k (hT c hc) hk
    · rw [hsp c hc]
      exact plain_ne ' ' k (by decide) hk
  rw [replaceAll_eq_self_gate tagAt (fun c => c = '#') tagAt_gate _ (hmem '#' (by decide))]
  rw [replaceFirst_eq_self_gate (emojiDateAt '✅') (fun c => c = '✅') (emojiDateAt_gate '✅')
    _ (hmem '✅' (by decide))]
  rw [replaceFirst_eq_self_gate (emojiDateAt '🛫') (fun c => c = '🛫') (emojiDateAt_gate '🛫')
    _ (hmem '🛫' (by decide))]
  rw [replaceFirst_eq_self_gate (emojiDateAt '⏰') (fun c => c = '⏰') (emojiDateAt_gate '⏰')
    _ (hmem '⏰' (by decide))]
  rw [replaceFirst_eq_self_gate recurAt (fun c => c = '🔁') recurAt_gate
    _ (hmem '🔁' (by decide))]
  rw [replaceFirst_eq_self_gate (emojiDateAt '✅') (fun c => c = '✅') (emojiDateAt_gate '✅')
    _ (hmem '✅' (by decide))]
  exact trimWs_collapseWs_append_ws T sp (fun c hc => by rw [hsp c hc]; decide)

/-- The priority-removal stage maps plain text plus a rendered priority
marker plus spaces to the plain text plus spaces. -/
theorem rmPrio_stage (T PR sp : List Char)
    (hT : ∀ c ∈ T, plainChar c = true)
    (hPR : PR = [] ∨ PR = [' ', '🔺'] ∨ PR = [' ', '🔻'])
    (hsp : ∀ c ∈ sp, c = ' ') :
    ∃ sp2, (∀ c ∈ sp2, c = ' ') ∧
      replaceFirst prioAt ((T ++ PR) ++ sp) = T ++ sp2 := by
  have hTnp : ∀ c ∈ T, ¬ (c = '🔺' ∨ c = '⏫' ∨ c = '🔻') := by
    intro c hc h
    rcases h with e | e | e <;> exact plain_ne c _ (hT c hc) (by decide) e
  have hTspnp : ∀ c ∈ T ++ [' '], ¬ (c = '🔺' ∨ c = '⏫' ∨ c = '🔻') := by
    intro c hc
    rcases List.mem_append.mp hc with hc | hc
    · exact hTnp c hc
    · have hc' : c = ' ' := by simpa using hc
      subst hc'
      decide
  rcases hPR with rfl | rfl | rfl
  · refine ⟨sp, hsp, ?_⟩
    rw [List.append_nil]
    apply replaceFirst_eq_self_gate prioAt _ prioAt_gate
    intro c hc
    rcases List.mem_append.mp hc with hc | hc
    · exact hTnp c hc
    · rw [hsp c hc]
      decide
  · refine ⟨' ' :: sp, ?_, ?_⟩
    · intro c hc
      rcases List.mem_cons.mp hc with rfl | hc
      · rfl
      · exact hsp c hc
    · have e : (T ++ [' ', '🔺']) ++ sp = (T ++ [' ']) ++ ('🔺' :: sp) := by
        simp
      rw [e, rmPrio_removes T sp '🔺' (Or.inl rfl) hTspnp]
      simp
  · refine ⟨' ' :: sp, ?_, ?_⟩
    · intro c hc
      rcases List.mem_cons.mp hc with rfl | hc
      · rfl
      · exact hsp c hc
    · have e : (T ++ [' ', '🔻']) ++ sp = (T ++ [' ']) ++ ('🔻' :: sp) := by
        simp
      rw [e, rmPrio_removes T sp '🔻' (Or.inr rfl) hTspnp]
      simp

/-- Core of the round-trip claim: normalizing plain text followed by the
rendered priority marker, due date and link marker yields the trimmed,
collapsed plain text. -/
theorem cleanList_plain_round (T PR DU idL : List Char)
    (hT : ∀ c ∈ T, plainChar c = true)
    (hPR : PR = [] ∨ PR = [' ', '🔺'] ∨ PR = [' ', '🔻'])
    (hDU : DU = [] ∨ ∃ dL, DU = ' ' :: '📅' :: ' ' :: dL ∧ dateShapeExact dL = true)
    (hne : idL ≠ []) (hid : ∀ c ∈ idL, ¬ c = ')' ∧ ¬ c = '[') :
    cleanList (((T ++ PR) ++ DU) ++ ' ' :: ("[🔗 MS To Do](ms-todo:".toList ++ (idL ++ [')']))) =
      trimWs (collapseWs T) := by
  have hTnb : ∀ c ∈ T, ¬ c = '[' := fun c hc => plain_ne c '[' (hT c hc) (by decide)
  have hTnd : ∀ c ∈ T, ¬ c = '📅' := fun c hc => plain_ne c '📅' (hT c hc) (by decide)
  have hPRnb : ∀ c ∈ PR, ¬ c = '[' := by
    rcases hPR with rfl | rfl | rfl <;> decide
  have hPRnd : ∀ c ∈ PR, ¬ c = '📅' := by
    rcases hPR with rfl | rfl | rfl <;> decide
  have hDUnb : ∀ c ∈ DU, ¬ c = '[' := by
    rcases hDU with rfl | ⟨dL, rfl, hdL⟩
    · intro c hc
      cases hc
    · obtain ⟨y1, y2, y3, y4, m1, m2, d1, d2, rfl, h1, h2, h3, h4, h5, h6, h7, h8⟩ :=
        dateShapeExact_spec dL hdL
      simp only [List.forall_mem_cons, List.not_mem_nil, false_implies, implies_true, and_true]
      refine ⟨by decide, by decide, by decide, ?_, ?_, ?_, ?_, by decide, ?_, ?_, by decide,
        ?_, ?_⟩ <;>
        exact plain_ne _ _ (digit_plain _ (by assumption)) (by decide)
  have hstep0 : ((T ++ PR) ++ DU) ++ ' ' :: ("[🔗 MS To Do](ms-todo:".toList ++ (idL ++ [')']))
      = (((T ++ PR) ++ DU) ++ [' ']) ++ ("[🔗 MS To Do](ms-todo:".toList ++ (idL ++ [')'])) := by
    simp
  have hPnb : ∀ c ∈ ((T ++ PR) ++ DU) ++ [' '], ¬ c = '[' := by
    intro c hc
    rcases List.mem_append.mp hc with hc | hc
    · rcases List.mem_append.mp hc with hc | hc
      · rcases List.mem_append.mp hc with hc | hc
        · exact hTnb c hc
        · exact hPRnb c hc
      · exact hDUnb c hc
    · have hc' : c = ' ' := by simpa using hc
      subst hc'
      decide
  unfold cleanList stripMarkers
  rw [hstep0]
  rw [replaceFirst_append_gate msIdAt (fun c => c = '[') msIdAt_gate _ _ hPnb,
    rmId_keeps_link idL (fun c hc => (hid c hc).2)]
  rw [rmLink_removes ((T ++ PR) ++ DU) idL hPnb hne (fun c hc => (hid c hc).1)]
  rcases hDU with rfl | ⟨dL, rfl, hdL⟩
  · rw [List.append_nil]
    have hNoDue : ∀ c ∈ (T ++ PR) ++ [' '], ¬ c = '📅' := by
      intro c hc
      rcases List.mem_append.mp hc with hc | hc
      · rcases List.mem_append.mp hc with hc | hc
        · exact hTnd c hc
        · exact hPRnd c hc
      · have hc' : c = ' ' := by simpa using hc
        subst hc'
        decide
    rw [replaceFirst_eq_self_gate (emojiDateAt '📅') (fun c => c = '📅') (emojiDateAt_gate '📅')
      _ hNoDue]
    obtain ⟨sp2, hsp2, hp⟩ := rmPrio_stage T PR [' '] hT hPR (by
      intro c hc
      simpa using hc)
    rw [hp]
    exact cleanList_tail_plain T sp2 hT hsp2
  · obtain ⟨y1, y2, y3, y4, m1, m2, d1, d2, rfl, h1, h2, h3, h4, h5, h6, h7, h8⟩ :=
      dateShapeExact_spec dL hdL
    have hre : ((T ++ PR) ++ (' ' :: '📅' :: ' ' :: [y1, y2, y3, y4, '-', m1, m2, '-', d1, d2]))
          ++ [' ']
        = ((T ++ PR) ++ [' ']) ++
          ('📅' :: ' ' :: ([y1, y2, y3, y4, '-', m1, m2, '-', d1, d2] ++ [' '])) := by
      simp
    rw [hre]
    have hPd : ∀ c ∈ (T ++ PR) ++ [' '], ¬ c = '📅' := by
      intro c hc
      rcases List.mem_append.mp hc with hc | hc
      · rcases List.mem_append.mp hc with hc | hc
        · exact hTnd c hc
        · exact hPRnd c hc
      · have hc' : c = ' ' := by simpa using hc
        subst hc'
        decide
    rw [rmDue_removes (T ++ PR) [' '] _ hPd
      (by simp [dateShapeExact, h1, h2, h3, h4, h5, h6, h7, h8])]
    have hre2 : ((T ++ PR) ++ [' ']) ++ [' '] = (T ++ PR) ++ [' ', ' '] := by
      simp
    rw [hre2]
    obtain ⟨sp2, hsp2, hp⟩ := rmPrio_stage T PR [' ', ' '] hT hPR (by
      intro c hc
      rcases List.mem_cons.mp hc with rfl | hc
      · rfl
      · simpa using hc)
    rw [hp]
    exact cleanList_tail_plain T sp2 hT hsp2

/-- String concatenation concatenates the character lists. -/
theorem toList_append (a b : String) : (a ++ b).toList = a.toList ++ b.toList :=
  String.data_append a b

/-- Rendering a stored `YYYY-MM-DD` day as a UTC ISO date-time and taking
the date part gives the day back. -/
theorem isoDatePart_date (d : String) (hd : dateShapeExact d.toList = true) :
    (isoDatePart (d ++ "T00:00:00.000Z")).toList = d.toList := by
  obtain ⟨y1, y2, y3, y4, m1, m2, d1, d2, he, h1, h2, h3, h4, h5, h6, h7, h8⟩ :=
    dateShapeExact_spec d.toList hd
  have hall : ∀ c ∈ ([y1, y2, y3, y4, '-', m1, m2, '-', d1, d2] : List Char),
      (fun c => c != 'T') c = true := by
    simp only [List.forall_mem_cons, List.not_mem_nil, false_implies, implies_true, and_true]
    refine ⟨?_, ?_, ?_, ?_, by decide, ?_, ?_, by decide, ?_, ?_⟩ <;>
      exact bne_true_of_ne _ _ (digit_ne_of _ _ (by assumption) (by decide))
  have e : (d ++ "T00:00:00.000Z").toList = d.toList ++ ('T' :: "00:00:00.000Z".toList) :=
    String.data_append d _
  unfold isoDatePart
  rw [asString_toList, e, he]
  rw [takeWhile_append_stop _ _ hall 'T' (by decide) _]

set_option maxHeartbeats 1600000 in
/-- C8: for a task whose normalized title is free of metadata-marker
characters (it carries only supported metadata), with a well-formed stored
due date and a well-formed remote identifier, rendering the remote draft of
the task back to local text and normalizing gives exactly the normalized
original text: `cleanTaskText (toLocalText (toRemoteDraft t)) =
cleanTaskText t.text`. -/
theorem cleanTaskText_roundTrip (o : ObsidianTask) (id : String)
    (hplain : ∀ c ∈ (cleanTaskText o.text).toList, plainChar c = true)
    (hne : id.toList ≠ [])
    (hid : ∀ c ∈ id.toList, ¬ c = ')' ∧ ¬ c = '[')
    (hdate : ∀ d, o.dueDate = some d → dateShapeExact d.toList = true) :
    cleanTaskText (formatTaskText (remoteOfDraft (convertObsidianToMSToDoTask o) id)) =
      cleanTaskText o.text := by
  rcases hdu : o.dueDate with _ | d
  ·
    rcases hpr : o.priority with _ | pr
    ·
            have hfl : (formatTaskText (remoteOfDraft (convertObsidianToMSToDoTask o) id)).toList
                = ((((cleanTaskText o.text).toList ++ ([] : List Char)) ++ ([] : List Char))
                    ++ ' ' :: ("[🔗 MS To Do](ms-todo:".toList ++ (id.toList ++ [')']))) := by
              simp [formatTaskText, remoteOfDraft, convertObsidianToMSToDoTask, hpr, hdu,
                toList_append, List.append_assoc]
            calc cleanTaskText (formatTaskText (remoteOfDraft (convertObsidianToMSToDoTask o) id))
                = (cleanList (formatTaskText
                    (remoteOfDraft (convertObsidianToMSToDoTask o) id)).toList).asString := rfl
              _ = (cleanList ((((cleanTaskText o.text).toList ++ ([] : List Char)) ++ ([] : List Char))
                    ++ ' ' :: ("[🔗 MS To Do](ms-todo:".toList ++ (id.toList ++ [')'])))).asString := by
                  rw [hfl]
              _ = (trimWs (collapseWs (cleanTaskText o.text).toList)).asString := by
                  rw [cleanList_plain_round (cleanTaskText o.text).toList ([] : List Char) ([] : List Char)
                    id.toList hplain (Or.inl rfl) (Or.inl rfl) hne hid]
              _ = (cleanList o.text.toList).asString :=
                  congrArg List.asString (trimWs_collapseWs_idem (stripMarkers o.text.toList))
              _ = cleanTaskText o.text := rfl
    · cases pr with
      | low =>
            have hfl : (formatTaskText (remoteOfDraft (convertObsidianToMSToDoTask o) id)).toList
                = ((((cleanTaskText o.text).toList ++ ([' ', '🔻'] : List Char)) ++ ([] : List Char))
                    ++ ' ' :: ("[🔗 MS To Do](ms-todo:".toList ++ (id.toList ++ [')']))) := by
              simp [formatTaskText, remoteOfDraft, convertObsidianToMSToDoTask, hpr, hdu,
                toList_append, List.append_assoc]
            calc cleanTaskText (formatTaskText (remoteOfDraft (convertObsidianToMSToDoTask o) id))
                = (cleanList (formatTaskText
                    (remoteOfDraft (convertObsidianToMSToDoTask o) id)).toList).asString := rfl
              _ = (cleanList ((((cleanTaskText o.text).toList ++ ([' ', '🔻'] : List Char)) ++ ([] : List Char))
                    ++ ' ' :: ("[🔗 MS To Do](ms-todo:".toList ++ (id.toList ++ [')'])))).asString := by
                  rw [hfl]
              _ = (trimWs (collapseWs (cleanTaskText o.text).toList)).asString := by
                  rw [cleanList_plain_round (cleanTaskText o.text).toList ([' ', '🔻'] : List Char) ([] : List Char)
                    id.toList hplain (Or.inr (Or.inr rfl)) (Or.inl rfl) hne hid]
              _ = (cleanList o.text.toList).asString :=
                  congrArg List.asString (trimWs_collapseWs_idem (stripMarkers o.text.toList))
              _ = cleanTaskText o.text := rfl
      | normal =>
            have hfl : (formatTaskText (remoteOfDraft (convertObsidianToMSToDoTask o) id)).toList
                = ((((cleanTaskText o.text).toList ++ ([] : List Char)) ++ ([] : List Char))
                    ++ ' ' :: ("[🔗 MS To Do](ms-todo:".toList ++ (id.toList ++ [')']))) := by
              simp [formatTaskText, remoteOfDraft, convertObsidianToMSToDoTask, hpr, hdu,
                toList_append, List.append_assoc]
            calc cleanTaskText (formatTaskText (remoteOfDraft (convertObsidianToMSToDoTask o) id))
                = (cleanList (formatTaskText
                    (remoteOfDraft (convertObsidianToMSToDoTask o) id)).toList).asString := rfl
              _ = (cleanList ((((cleanTaskText o.text).toList ++ ([] : List Char)) ++ ([] : List Char))
                    ++ ' ' :: ("[🔗 MS To Do](ms-todo:".toList ++ (id.toList ++ [')'])))).asString := by
                  rw [hfl]
              _ = (trimWs (collapseWs (cleanTaskText o.text).toList)).asString := by
                  rw [cleanList_plain_round (cleanTaskText o.text).toList ([] : List Char) ([] : List Char)
                    id.toList hplain (Or.inl rfl) (Or.inl rfl) hne hid]
              _ = (cleanList o.text.toList).asString :=
                  congrArg List.asString (trimWs_collapseWs_idem (stripMarkers o.text.toList))
              _ = cleanTaskText o.text := rfl
      | high =>
            have hfl : (formatTaskText (remoteOfDraft (convertObsidianToMSToDoTask o) id)).toList
                = ((((cleanTaskText o.text).toList ++ ([' ', '🔺'] : List Char)) ++ ([] : List Char))
                    ++ ' ' :: ("[🔗 MS To Do](ms-todo:".toList ++ (id.toList ++ [')']))) := by
              simp [formatTaskText, remoteOfDraft, convertObsidianToMSToDoTask, hpr, hdu,
                toList_append, List.append_assoc]
            calc cleanTaskText (formatTaskText (remoteOfDraft (convertObsidianToMSToDoTask o) id))
                = (cleanList (formatTaskText
                    (remoteOfDraft (convertObsidianToMSToDoTask o) id)).toList).asString := rfl
              _ = (cleanList ((((cleanTaskText o.text).toList ++ ([' ', '🔺'] : List Char)) ++ ([] : List Char))
                    ++ ' ' :: ("[🔗 MS To Do](ms-todo:".toList ++ (id.toList ++ [')'])))).asString := by
                  rw [hfl]
              _ = (trimWs (collapseWs (cleanTaskText o.text).toList)).asString := by
                  rw [cleanList_plain_round (cleanTaskText o.text).toList ([' ', '🔺'] : List Char) ([] : List Char)
                    id.toList hplain (Or.inr (Or.inl rfl)) (Or.inl rfl) hne hid]
              _ = (cleanList o.text.toList).asString :=
                  congrArg List.asString (trimWs_collapseWs_idem (stripMarkers o.text.toList))
              _ = cleanTaskText o.text := rfl
  · have hd := hdate d hdu
    have hisoD : (isoDatePart (d ++ "T00:00:00.000Z")).data = d.data := isoDatePart_date d hd
    rcases hpr : o.priority with _ | pr
    ·
            have hfl : (formatTaskText (remoteOfDraft (convertObsidianToMSToDoTask o) id)).toList
                = ((((cleanTaskText o.text).toList ++ ([] : List Char)) ++ (' ' :: '📅' :: ' ' :: d.toList))
                    ++ ' ' :: ("[🔗 MS To Do](ms-todo:".toList ++ (id.toList ++ [')']))) := by
              simp [formatTaskText, remoteOfDraft, convertObsidianToMSToDoTask, hpr, hdu, hisoD,
                toList_append, List.append_assoc]
            calc cleanTaskText (formatTaskText (remoteOfDraft (convertObsidianToMSToDoTask o) id))
                = (cleanList (formatTaskText
                    (remoteOfDraft (convertObsidianToMSToDoTask o) id)).toList).asString := rfl
              _ = (cleanList ((((cleanTaskText o.text).toList ++ ([] : List Char)) ++ (' ' :: '📅' :: ' ' :: d.toList))
                    ++ ' ' :: ("[🔗 MS To Do](ms-todo:".toList ++ (id.toList ++ [')'])))).asString := by
                  rw [hfl]
              _ = (trimWs (collapseWs (cleanTaskText o.text).toList)).asString := by
                  rw [cleanList_plain_round (cleanTaskText o.text).toList ([] : List Char) (' ' :: '📅' :: ' ' :: d.toList)
                    id.toList hplain (Or.inl rfl) (Or.inr ⟨d.toList, rfl, hd⟩) hne hid]
              _ = (cleanList o.text.toList).asString :=
                  congrArg List.asString (trimWs_collapseWs_idem (stripMarkers o.text.toList))
              _ = cleanTaskText o.text := rfl
    · cases pr with
      | low =>
            have hfl : (formatTaskText (remoteOfDraft (convertObsidianToMSToDoTask o) id)).toList
                = ((((cleanTaskText o.text).toList ++ ([' ', '🔻'] : List Char)) ++ (' ' :: '📅' :: ' ' :: d.toList))
                    ++ ' ' :: ("[🔗 MS To Do](ms-todo:".toList ++ (id.toList ++ [')']))) := by
              simp [formatTaskText, remoteOfDraft, convertObsidianToMSToDoTask, hpr, hdu, hisoD,
                toList_append, List.append_assoc]
            calc cleanTaskText (formatTaskText (remoteOfDraft (convertObsidianToMSToDoTask o) id))
                = (cleanList (formatTaskText
                    (remoteOfDraft (convertObsidianToMSToDoTask o) id)).toList).asString := rfl
              _ = (cleanList ((((cleanTaskText o.text).toList ++ ([' ', '🔻'] : List Char)) ++ (' ' :: '📅' :: ' ' :: d.toList))
                    ++ ' ' :: ("[🔗 MS To Do](ms-todo:".toList ++ (id.toList ++ [')'])))).asString := by
                  rw [hfl]
              _ = (trimWs (collapseWs (cleanTaskText o.text).toList)).asString := by
                  rw [cleanList_plain_round (cleanTaskText o.text).toList ([' ', '🔻'] : List Char) (' ' :: '📅' :: ' ' :: d.toList)
                    id.toList hplain (Or.inr (Or.inr rfl)) (Or.inr ⟨d.toList, rfl, hd⟩) hne hid]
              _ = (cleanList o.text.toList).asString :=
                  congrArg List.asString (trimWs_collapseWs_idem (stripMarkers o.text.toList))
              _ = cleanTaskText o.text := rfl
      | normal =>
            have hfl : (formatTaskText (remoteOfDraft (convertObsidianToMSToDoTask o) id)).toList
                = ((((cleanTaskText o.text).toList ++ ([] : List Char)) ++ (' ' :: '📅' :: ' ' :: d.toList))
                    ++ ' ' :: ("[🔗 MS To Do](ms-todo:".toList ++ (id.toList ++ [')']))) := by
              simp [formatTaskText, remoteOfDraft, convertObsidianToMSToDoTask, hpr, hdu, hisoD,
                toList_append, List.append_assoc]
            calc cleanTaskText (formatTaskText (remoteOfDraft (convertObsidianToMSToDoTask o) id))
                = (cleanList (formatTaskText
                    (remoteOfDraft (convertObsidianToMSToDoTask o) id)).toList).asString := rfl
              _ = (cleanList ((((cleanTaskText o.text).toList ++ ([] : List Char)) ++ (' ' :: '📅' :: ' ' :: d.toList))
                    ++ ' ' :: ("[🔗 MS To Do](ms-todo:".toList ++ (id.toList ++ [')'])))).asString := by
                  rw [hfl]
              _ = (trimWs (collapseWs (cleanTaskText o.text).toList)).asString := by
                  rw [cleanList_plain_round (cleanTaskText o.text).toList ([] : List Char) (' ' :: '📅' :: ' ' :: d.toList)
                    id.toList hplain (Or.inl rfl) (Or.inr ⟨d.toList, rfl, hd⟩) hne hid]
              _ = (cleanList o.text.toList).asString :=
                  congrArg List.asString (trimWs_collapseWs_idem (stripMarkers o.text.toList))
              _ = cleanTaskText o.text := rfl
      | high =>
            have hfl : (formatTaskText (remoteOfDraft (convertObsidianToMSToDoTask o) id)).toList
                = ((((cleanTaskText o.text).toList ++ ([' ', '🔺'] : List Char)) ++ (' ' :: '📅' :: ' ' :: d.toList))
                    ++ ' ' :: ("[🔗 MS To Do](ms-todo:".toList ++ (id.toList ++ [')']))) := by
              simp [formatTaskText, remoteOfDraft, convertObsidianToMSToDoTask, hpr, hdu, hisoD,
                toList_append, List.append_assoc]
            calc cleanTaskText (formatTaskText (remoteOfDraft (convertObsidianToMSToDoTask o) id))
                = (cleanList (formatTaskText
                    (remoteOfDraft (convertObsidianToMSToDoTask o) id)).toList).asString := rfl
              _ = (cleanList ((((cleanTaskText o.text).toList ++ ([' ', '🔺'] : List Char)) ++ (' ' :: '📅' :: ' ' :: d.toList))
                    ++ ' ' :: ("[🔗 MS To Do](ms-todo:".toList ++ (id.toList ++ [')'])))).asString := by
                  rw [hfl]
              _ = (trimWs (collapseWs (cleanTaskText o.text).toList)).asString := by
                  rw [cleanList_plain_round (cleanTaskText o.text).toList ([' ', '🔺'] : List Char) (' ' :: '📅' :: ' ' :: d.toList)
                    id.toList hplain (Or.inr (Or.inl rfl)) (Or.inr ⟨d.toList, rfl, hd⟩) hne hid]
              _ = (cleanList o.text.toList).asString :=
                  congrArg List.asString (trimWs_collapseWs_idem (stripMarkers o.text.toList))
              _ = cleanTaskText o.text := rfl

/-- C8 witness: the round trip on a concrete task with a due date, a
priority, a tag and a link marker. -/
theorem cleanTaskText_roundTrip_witness :
    cleanTaskText (formatTaskText (remoteOfDraft (convertObsidianToMSToDoTask exLocalRich)
      "ZZ9")) = cleanTaskText exLocalRich.text :=
  cleanTaskText_roundTrip exLocalRich "ZZ9" (by decide) (by decide) (by decide)
    (by intro d hd; cases hd; decide)
